import Mathlib

/-!
Verification development for the multi-agent deep-research subsystem of the
ai-project-planner repository: search provider relevance scoring, the unified
search aggregator (weighted combination, deduplication, URL normalization),
the tool-call protocol (pattern scanning of assistant text, forced-progress
guard, dispatch), the supervisor loop of the research orchestrator, and the
HTTP route validation.

JavaScript semantics are embedded as follows: strings are Lean `String`s and
all computation happens on their underlying `List Char`; numbers that carry
relevance scores and weights are exact rationals `ℚ`; `undefined`/absent
values are `Option`; a JS function that may throw returns `Except String`;
the falsy coalescing `x || d` on numbers maps `none` and `0` to `d`.
-/

/-! ## Character and string utilities -/

/-- The characters matched by the JavaScript regex class `\s` (ASCII range). -/
def jsIsSpace (c : Char) : Bool :=
  c == ' ' || c == '\t' || c == '\n' || c == '\r' || c == '\x0b' || c == '\x0c'

/-- The characters matched by the JavaScript regex class `\w`. -/
def jsIsWordChar (c : Char) : Bool :=
  (c.isAlpha || c.isDigit) || c == '_'

/-- Lowercasing of a character sequence, as `String.prototype.toLowerCase`
restricted to ASCII. -/
def lowerL (l : List Char) : List Char := l.map Char.toLower

/-- Substring test, as `String.prototype.includes pat`. -/
def containsSub (pat : List Char) : List Char → Bool
  | [] => pat.isEmpty
  | c :: r => pat.isPrefixOf (c :: r) || containsSub pat r

/-- Trimming of ASCII whitespace at both ends, as `String.prototype.trim`. -/
def trimL (l : List Char) : List Char :=
  ((l.dropWhile jsIsSpace).reverse.dropWhile jsIsSpace).reverse

/-- Maximal runs of non-whitespace characters, accumulator-based. -/
def wsChunksAux (cur : List Char) : List Char → List (List Char)
  | [] => if cur.isEmpty then [] else [cur.reverse]
  | c :: r =>
    if jsIsSpace c then
      (if cur.isEmpty then [] else [cur.reverse]) ++ wsChunksAux [] r
    else wsChunksAux (c :: cur) r

/-- Splitting on runs of whitespace, as `String.prototype.split` with the
regex `\s+`: a leading (resp. trailing) whitespace run contributes a leading
(resp. trailing) empty piece, and the split of the empty string is `[""]`. -/
def jsSplitWs (l : List Char) : List (List Char) :=
  match l with
  | [] => [[]]
  | c :: r =>
    (if jsIsSpace c then [[]] else []) ++ wsChunksAux [] (c :: r) ++
      (if (match (c :: r).getLast? with | some d => jsIsSpace d | none => false) then [[]] else [])

/-- Splitting on one literal character, as `String.prototype.split` with a
single-character separator string. -/
def splitOnChar (sep : Char) (l : List Char) : List (List Char) := l.splitOn sep

/-! ## Lexical relevance heuristic (Google and DuckDuckGo adapters)

Embedded from `calculateRelevance` in `google-search.service.ts` and in the
DuckDuckGo service: lowercase the three inputs, add 0.5 when the query is a
substring of the title and 0.3 when it is a substring of the snippet, then
for each whitespace-split query word add 0.1 when the title's word list
contains it and 0.05 when the snippet's does — the Google version scores
every query word, the DuckDuckGo version only words of length > 2 — and
finally clamp with `Math.min score 1`. -/

/-- Per-word bonus shared by both adapters: 0.1 for a title word-list match
plus 0.05 for a snippet word-list match. -/
def wordBonus (titleWords snippetWords : List (List Char)) (w : List Char) : ℚ :=
  (if titleWords.contains w then 1/10 else 0) + (if snippetWords.contains w then 1/20 else 0)

/-- `calculateRelevance` of `GoogleSearchService` (no word-length filter). -/
def calculateRelevanceGoogle (query title snippet : String) : ℚ :=
  let queryLower := lowerL query.data
  let titleLower := lowerL title.data
  let snippetLower := lowerL snippet.data
  let base : ℚ :=
    (if containsSub queryLower titleLower then 1/2 else 0) +
    (if containsSub queryLower snippetLower then 3/10 else 0)
  let queryWords := jsSplitWs queryLower
  let titleWords := jsSplitWs titleLower
  let snippetWords := jsSplitWs snippetLower
  let score := queryWords.foldl
    (fun s w =>
      s + (if titleWords.contains w then 1/10 else 0)
        + (if snippetWords.contains w then 1/20 else 0)) base
  min score 1

/-- `calculateRelevance` of `DuckDuckGoSearchService` (words of length ≤ 2
are skipped in the per-word loop). -/
def calculateRelevanceDDG (query title snippet : String) : ℚ :=
  let queryLower := lowerL query.data
  let titleLower := lowerL title.data
  let snippetLower := lowerL snippet.data
  let base : ℚ :=
    (if containsSub queryLower titleLower then 1/2 else 0) +
    (if containsSub queryLower snippetLower then 3/10 else 0)
  let queryWords := jsSplitWs queryLower
  let titleWords := jsSplitWs titleLower
  let snippetWords := jsSplitWs snippetLower
  let score := queryWords.foldl
    (fun s w =>
      if 2 < w.length then
        s + (if titleWords.contains w then 1/10 else 0)
          + (if snippetWords.contains w then 1/20 else 0)
      else s) base
  min score 1

/-- Closed-form description of the Google adapter's score, written as the
spec phrases the heuristic but with the two deviations the code forces: word
matches are word-list membership, and every query word is scored. -/
def specRelevanceGoogle (query title snippet : String) : ℚ :=
  let queryLower := lowerL query.data
  let titleLower := lowerL title.data
  let snippetLower := lowerL snippet.data
  min ((if containsSub queryLower titleLower then 1/2 else 0) +
       (if containsSub queryLower snippetLower then 3/10 else 0) +
       ((jsSplitWs queryLower).map
          (wordBonus (jsSplitWs titleLower) (jsSplitWs snippetLower))).sum) 1

/-- Closed-form description of the DuckDuckGo adapter's score: as in the
spec, only query words of length > 2 are scored. -/
def specRelevanceDDG (query title snippet : String) : ℚ :=
  let queryLower := lowerL query.data
  let titleLower := lowerL title.data
  let snippetLower := lowerL snippet.data
  min ((if containsSub queryLower titleLower then 1/2 else 0) +
       (if containsSub queryLower snippetLower then 3/10 else 0) +
       ((jsSplitWs queryLower).map
          (fun w => if 2 < w.length then
              wordBonus (jsSplitWs titleLower) (jsSplitWs snippetLower) w
            else 0)).sum) 1

theorem foldl_add_eq_sum (f : List Char → ℚ) (b : ℚ) (l : List (List Char)) :
    l.foldl (fun s w => s + f w) b = b + (l.map f).sum := by
  induction l generalizing b with
  | nil => simp
  | cons a t ih => simp [ih, add_assoc]

/-- C8 counterexample: the two adapters disagree at query "ai", title "ai",
empty snippet (Google scores the two-letter word, DuckDuckGo skips it), so
no single formula computes both. -/
theorem relevance_adapters_disagree :
    calculateRelevanceGoogle "ai" "ai" "" = 3/5 ∧
    calculateRelevanceDDG "ai" "ai" "" = 1/2 ∧
    calculateRelevanceGoogle "ai" "ai" "" ≠ calculateRelevanceDDG "ai" "ai" "" := by
  refine ⟨?_, ?_, ?_⟩ <;>
    simp +decide only [calculateRelevanceGoogle, calculateRelevanceDDG, lowerL, jsSplitWs,
      wsChunksAux, jsIsSpace, containsSub, List.foldl] <;>
    norm_num

/-- C8 amended: each adapter's lexical relevance equals its closed-form sum —
0.5 for the query appearing as a substring of the title, 0.3 for the snippet,
plus per-query-word bonuses of 0.1 (title word list) and 0.05 (snippet word
list), clamped to at most 1 — where Google scores every query word while
DuckDuckGo scores only words of length > 2, and a word matches by membership
in the whitespace-split word list. -/
theorem relevance_closed_form (query title snippet : String) :
    calculateRelevanceGoogle query title snippet = specRelevanceGoogle query title snippet ∧
    calculateRelevanceDDG query title snippet = specRelevanceDDG query title snippet := by
  constructor
  · simp only [calculateRelevanceGoogle, specRelevanceGoogle]
    have h := foldl_add_eq_sum
      (wordBonus (jsSplitWs (lowerL title.data)) (jsSplitWs (lowerL snippet.data)))
      ((if containsSub (lowerL query.data) (lowerL title.data) then (1:ℚ)/2 else 0) +
        (if containsSub (lowerL query.data) (lowerL snippet.data) then (3:ℚ)/10 else 0))
      (jsSplitWs (lowerL query.data))
    simp only [wordBonus, ← add_assoc] at h
    rw [h]
  · simp only [calculateRelevanceDDG, specRelevanceDDG]
    have hcong : ∀ (tw sw : List (List Char)) (s : ℚ) (w : List Char),
        (if 2 < w.length then
            s + (if tw.contains w then (1:ℚ)/10 else 0)
              + (if sw.contains w then (1:ℚ)/20 else 0)
          else s) =
        s + (if 2 < w.length then wordBonus tw sw w else 0) := by
      intro tw sw s w
      by_cases h2 : 2 < w.length <;> simp [h2, wordBonus, add_assoc]
    have h := foldl_add_eq_sum
      (fun w => if 2 < w.length then
          wordBonus (jsSplitWs (lowerL title.data)) (jsSplitWs (lowerL snippet.data)) w
        else 0)
      ((if containsSub (lowerL query.data) (lowerL title.data) then (1:ℚ)/2 else 0) +
        (if containsSub (lowerL query.data) (lowerL snippet.data) then (3:ℚ)/10 else 0))
      (jsSplitWs (lowerL query.data))
    simp only [hcong]
    rw [h]

/-! ## URL normalization (UnifiedSearchService)

`normalizeUrl` parses the URL with the platform `URL` constructor and
returns `origin + pathname.replace(/\/$/, '') + search`; when parsing
throws it returns `url.toLowerCase().replace(/\/$/, '')`. -/

/-- Characters allowed in the host component (parsing stops at the first
path, query or fragment delimiter). -/
def hostChar (c : Char) : Bool := !(c == '/' || c == '?' || c == '#')

/-- Characters allowed in the path component. -/
def pathChar (c : Char) : Bool := !(c == '?' || c == '#')

/-- Characters allowed after the first character of a URL scheme. -/
def schemeTailChar (c : Char) : Bool := (c.isAlpha || c.isDigit) || c == '+' || c == '-' || c == '.'

/-- Validity of a URL scheme: a letter followed by letters, digits, plus,
minus or dot. -/
def schemeOK : List Char → Bool
  | [] => false
  | c :: cs => c.isAlpha && cs.all schemeTailChar

/-- Components the platform URL parser exposes to `normalizeUrl`:
`origin` is `scheme://host` and the fragment is discarded. -/
structure UrlParts where
  scheme : List Char
  host : List Char
  pathname : List Char
  search : List Char
deriving DecidableEq

/-- A character that is not a colon (scheme delimiter scanning). -/
def notColon (c : Char) : Bool := !(c == ':')

/-- A character that is not a fragment delimiter. -/
def notHash (c : Char) : Bool := !(c == '#')

/-- Modelled from the spec: the platform WHATWG `URL` constructor used by
`normalizeUrl`, which is not part of the repository. The model covers the
subset the spec relies on: `scheme://host` URLs with optional path, query
and fragment; the scheme and host are lowercased into `origin`, an absent
path reads back as "/", an empty query reads back as an empty `search`, and
the fragment is dropped. Inputs without a valid scheme, without the `//`
authority marker or with an empty host fail to parse (the constructor
throws). The parser is split into components: `hostOf`/`afterHost` consume
the host, `pathOf`/`afterPath` the path, `searchOf` the query, and
`urlParse` glues them after validating the scheme.

The host component of the authority-relative remainder. -/
def hostOf (r3 : List Char) : List Char := r3.takeWhile hostChar

/-- What remains of the authority-relative part once the host is consumed. -/
def afterHost (r3 : List Char) : List Char := r3.dropWhile hostChar

/-- The path component: present only when the remainder starts with '/'. -/
def pathOf (r4 : List Char) : List Char :=
  match r4 with
  | '/' :: _ => r4.takeWhile pathChar
  | _ => []

/-- What remains once the path is consumed. -/
def afterPath (r4 : List Char) : List Char :=
  match r4 with
  | '/' :: _ => r4.dropWhile pathChar
  | _ => r4

/-- The search component: a non-empty query prefixed by '?', the fragment
dropped; an empty query reads back as an empty search. -/
def searchOf (r5 : List Char) : List Char :=
  match r5 with
  | '?' :: r6 =>
    if (r6.takeWhile notHash).isEmpty then []
    else '?' :: r6.takeWhile notHash
  | _ => []

/-- Component assembly once the scheme and the `//` marker are consumed. -/
def parseAfterAuthority (scheme r3 : List Char) : Option UrlParts :=
  if (hostOf r3).isEmpty then none
  else
    some ⟨lowerL scheme, lowerL (hostOf r3),
      (if (pathOf (afterHost r3)).isEmpty then ['/'] else pathOf (afterHost r3)),
      searchOf (afterPath (afterHost r3))⟩

def urlParse (l : List Char) : Option UrlParts :=
  if [':', '/', '/'].isPrefixOf (l.dropWhile notColon) then
    if schemeOK (l.takeWhile notColon) then
      parseAfterAuthority (l.takeWhile notColon) ((l.dropWhile notColon).drop 3)
    else none
  else none

/-- One trailing slash removed, as `replace(/\/$/, '')`. -/
def stripTrailingSlash (l : List Char) : List Char :=
  match l.getLast? with
  | some '/' => l.dropLast
  | _ => l

/-- The string `normalizeUrl` rebuilds from parsed URL components:
`origin + pathname.replace(/\/$/, '') + search`. -/
def renderParts (p : UrlParts) : List Char :=
  p.scheme ++ [':', '/', '/'] ++ p.host ++ stripTrailingSlash p.pathname ++ p.search

/-- `normalizeUrl` of `UnifiedSearchService`. -/
def normalizeUrl (url : String) : String :=
  match urlParse url.data with
  | some p => ⟨renderParts p⟩
  | none => ⟨stripTrailingSlash (lowerL url.data)⟩

/-- C9 counterexample: `normalizeUrl` strips only one trailing slash, so it
is not idempotent — on the unparsable input "a//" one application yields
"a/" and a second application yields "a". -/
theorem normalizeUrl_not_idempotent :
    normalizeUrl "a//" = "a/" ∧ normalizeUrl (normalizeUrl "a//") = "a" ∧
    normalizeUrl (normalizeUrl "a//") ≠ normalizeUrl "a//" := by
  refine ⟨by decide, by decide, by decide⟩

/-! ### Character facts used by the URL normalization proofs -/

theorem char_toNat_ofNat {n : Nat} (h : n.isValidChar) : (Char.ofNat n).toNat = n := by
  simp only [Char.ofNat, h, dif_pos, Char.ofNatAux, Char.toNat, UInt32.toNat]
  simp [BitVec.toNat_ofNatLt]

theorem char_toNat_injective {c d : Char} (h : c.toNat = d.toNat) : c = d :=
  Char.eq_of_val_eq (UInt32.ext h)

theorem toLower_toNat (c : Char) :
    (Char.toLower c).toNat = if 65 ≤ c.toNat ∧ c.toNat ≤ 90 then c.toNat + 32 else c.toNat := by
  simp only [Char.toLower]
  split
  · next h => exact char_toNat_ofNat (Or.inl (by omega))
  · rfl

theorem toLower_toLower (c : Char) : Char.toLower (Char.toLower c) = Char.toLower c := by
  apply char_toNat_injective
  rw [toLower_toNat (Char.toLower c), toLower_toNat c]
  by_cases h : 65 ≤ c.toNat ∧ c.toNat ≤ 90
  · simp only [if_pos h]
    rw [if_neg (by omega)]
  · simp only [if_neg h]

theorem toLower_fixed_of_lt {d : Char} (hd : d.toNat < 65) : Char.toLower d = d := by
  apply char_toNat_injective
  rw [toLower_toNat]
  rw [if_neg (by omega)]

theorem toLower_eq_iff_of_lt {c d : Char} (hd : d.toNat < 65) :
    Char.toLower c = d ↔ c = d := by
  constructor
  · intro h
    have h2 := congrArg Char.toNat h
    rw [toLower_toNat] at h2
    split at h2
    · omega
    · exact char_toNat_injective h2
  · rintro rfl
    exact toLower_fixed_of_lt hd

theorem beq_toLower_of_lt (c : Char) {d : Char} (hd : d.toNat < 65) :
    (Char.toLower c == d) = (c == d) := by
  by_cases h : c = d
  · subst h
    rw [toLower_fixed_of_lt hd]
  · have h2 : Char.toLower c ≠ d := fun hc => h ((toLower_eq_iff_of_lt hd).1 hc)
    simp [h, h2]

theorem isUpper_toNat (c : Char) : c.isUpper = decide (65 ≤ c.toNat ∧ c.toNat ≤ 90) := by
  simp only [Char.isUpper, ge_iff_le, UInt32.le_def, BitVec.le_def, Bool.decide_and]
  rfl

theorem isLower_toNat (c : Char) : c.isLower = decide (97 ≤ c.toNat ∧ c.toNat ≤ 122) := by
  simp only [Char.isLower, ge_iff_le, UInt32.le_def, BitVec.le_def, Bool.decide_and]
  rfl

theorem isDigit_toNat (c : Char) : c.isDigit = decide (48 ≤ c.toNat ∧ c.toNat ≤ 57) := by
  simp only [Char.isDigit, ge_iff_le, UInt32.le_def, BitVec.le_def, Bool.decide_and]
  rfl

theorem isAlpha_toLower (c : Char) : (Char.toLower c).isAlpha = c.isAlpha := by
  simp only [Char.isAlpha, isUpper_toNat, isLower_toNat, toLower_toNat]
  by_cases h : 65 ≤ c.toNat ∧ c.toNat ≤ 90
  · rw [if_pos h]
    apply Bool.eq_iff_iff.mpr
    simp only [Bool.or_eq_true, decide_eq_true_eq]
    omega
  · rw [if_neg h]

theorem isDigit_toLower (c : Char) : (Char.toLower c).isDigit = c.isDigit := by
  simp only [isDigit_toNat, toLower_toNat]
  by_cases h : 65 ≤ c.toNat ∧ c.toNat ≤ 90
  · rw [if_pos h]
    apply Bool.eq_iff_iff.mpr
    simp only [decide_eq_true_eq]
    omega
  · rw [if_neg h]

theorem notColon_toLower (c : Char) : notColon (Char.toLower c) = notColon c := by
  simp only [notColon]
  rw [beq_toLower_of_lt c (by decide)]

theorem notHash_toLower (c : Char) : notHash (Char.toLower c) = notHash c := by
  simp only [notHash]
  rw [beq_toLower_of_lt c (by decide)]

theorem hostChar_toLower (c : Char) : hostChar (Char.toLower c) = hostChar c := by
  simp only [hostChar]
  rw [beq_toLower_of_lt c (by decide), beq_toLower_of_lt c (by decide),
    beq_toLower_of_lt c (by decide)]

theorem pathChar_toLower (c : Char) : pathChar (Char.toLower c) = pathChar c := by
  simp only [pathChar]
  rw [beq_toLower_of_lt c (by decide), beq_toLower_of_lt c (by decide)]

theorem schemeTailChar_toLower (c : Char) : schemeTailChar (Char.toLower c) = schemeTailChar c := by
  simp only [schemeTailChar]
  rw [isAlpha_toLower, isDigit_toLower, beq_toLower_of_lt c (by decide),
    beq_toLower_of_lt c (by decide), beq_toLower_of_lt c (by decide)]

/-! ### List facts used by the URL normalization proofs -/

theorem lowerL_idem (l : List Char) : lowerL (lowerL l) = lowerL l := by
  simp only [lowerL, List.map_map]
  exact List.map_congr_left (fun c _ => toLower_toLower c)

theorem takeWhile_lowerL {p : Char → Bool} (hp : ∀ c, p (Char.toLower c) = p c) (l : List Char) :
    (lowerL l).takeWhile p = lowerL (l.takeWhile p) := by
  have hfun : (p ∘ Char.toLower) = p := funext hp
  rw [lowerL, List.takeWhile_map, hfun]
  rfl

theorem dropWhile_lowerL {p : Char → Bool} (hp : ∀ c, p (Char.toLower c) = p c) (l : List Char) :
    (lowerL l).dropWhile p = lowerL (l.dropWhile p) := by
  have hfun : (p ∘ Char.toLower) = p := funext hp
  rw [lowerL, List.dropWhile_map, hfun]
  rfl

theorem all_lowerL {p : Char → Bool} (hp : ∀ c, p (Char.toLower c) = p c) (l : List Char) :
    (lowerL l).all p = l.all p := by
  have hfun : (p ∘ Char.toLower) = p := funext hp
  rw [lowerL, List.all_map, hfun]

theorem schemeOK_lowerL (s : List Char) : schemeOK (lowerL s) = schemeOK s := by
  cases s with
  | nil => rfl
  | cons c cs =>
    simp only [lowerL, List.map_cons, schemeOK]
    rw [isAlpha_toLower]
    have h2 : (lowerL cs).all schemeTailChar = cs.all schemeTailChar :=
      all_lowerL schemeTailChar_toLower cs
    simp only [lowerL] at h2
    rw [h2]

theorem dropWhile_cons_head_false {p : Char → Bool} :
    ∀ (l : List Char) {c : Char} {r : List Char}, l.dropWhile p = c :: r → p c = false := by
  intro l
  induction l with
  | nil => intro c r h; exact absurd h (by simp)
  | cons a t ih =>
    intro c r h
    rw [List.dropWhile_cons] at h
    by_cases hp : p a
    · rw [if_pos hp] at h
      exact ih h
    · rw [if_neg hp] at h
      cases h
      simpa using hp

theorem takeWhile_all_eq {p : Char → Bool} {xs : List Char} (h : ∀ c ∈ xs, p c = true) :
    xs.takeWhile p = xs := List.takeWhile_eq_self_iff.mpr h

theorem takeWhile_append_of_all {p : Char → Bool} {xs : List Char}
    (h : ∀ c ∈ xs, p c = true) (ys : List Char) :
    (xs ++ ys).takeWhile p = xs ++ ys.takeWhile p := by
  rw [List.takeWhile_append, takeWhile_all_eq h, if_pos rfl]

theorem dropWhile_append_of_all {p : Char → Bool} {xs : List Char}
    (h : ∀ c ∈ xs, p c = true) (ys : List Char) :
    (xs ++ ys).dropWhile p = ys.dropWhile p := by
  rw [List.dropWhile_append, List.dropWhile_eq_nil_iff.mpr h]
  rfl

theorem takeWhile_append_stop {p : Char → Bool} {xs : List Char}
    (h : ∀ c ∈ xs, p c = true) {y : Char} {ys : List Char} (hy : p y = false) :
    (xs ++ y :: ys).takeWhile p = xs := by
  rw [takeWhile_append_of_all h, List.takeWhile_cons, hy]
  simp

theorem dropWhile_append_stop {p : Char → Bool} {xs : List Char}
    (h : ∀ c ∈ xs, p c = true) {y : Char} {ys : List Char} (hy : p y = false) :
    (xs ++ y :: ys).dropWhile p = y :: ys := by
  rw [dropWhile_append_of_all h, List.dropWhile_cons, hy]
  simp

theorem strip_eq_of_ne {l : List Char} (h : l.getLast? ≠ some '/') :
    stripTrailingSlash l = l := by
  unfold stripTrailingSlash
  split
  · next heq => exact absurd heq h
  · rfl

theorem strip_eq_dropLast {l : List Char} (h : l.getLast? = some '/') :
    stripTrailingSlash l = l.dropLast := by
  unfold stripTrailingSlash
  rw [h]
  rfl

theorem lowerL_isEmpty (l : List Char) : (lowerL l).isEmpty = l.isEmpty := by
  cases l <;> rfl

theorem drop_lowerL (n : Nat) (l : List Char) : (lowerL l).drop n = lowerL (l.drop n) := by
  simp [lowerL, List.map_drop]

theorem beq_lit_toLower (c d : Char) (hd : d.toNat < 65) :
    (d == Char.toLower c) = (d == c) := by
  by_cases h : c = d
  · subst h
    rw [toLower_fixed_of_lt hd]
  · have h1 : (d == c) = false := by
      simp only [beq_eq_false_iff_ne, ne_eq]
      exact fun hx => h hx.symm
    have h2 : (d == Char.toLower c) = false := by
      simp only [beq_eq_false_iff_ne, ne_eq]
      exact fun hx => h ((toLower_eq_iff_of_lt hd).1 hx.symm)
    rw [h1, h2]

theorem prefix3_lowerL (l : List Char) :
    [':', '/', '/'].isPrefixOf (lowerL l) = [':', '/', '/'].isPrefixOf l := by
  rcases l with _ | ⟨c1, l1⟩
  · rfl
  rcases l1 with _ | ⟨c2, l2⟩
  · simp only [lowerL, List.map_cons, List.map_nil, List.isPrefixOf,
      beq_lit_toLower c1 ':' (by decide)]
  rcases l2 with _ | ⟨c3, l3⟩
  · simp only [lowerL, List.map_cons, List.map_nil, List.isPrefixOf,
      beq_lit_toLower c1 ':' (by decide), beq_lit_toLower c2 '/' (by decide)]
  · simp only [lowerL, List.map_cons, List.isPrefixOf,
      beq_lit_toLower c1 ':' (by decide), beq_lit_toLower c2 '/' (by decide),
      beq_lit_toLower c3 '/' (by decide)]

theorem hostOf_lowerL (r : List Char) : hostOf (lowerL r) = lowerL (hostOf r) :=
  takeWhile_lowerL hostChar_toLower r

theorem lowerL_strip (l : List Char) :
    lowerL (stripTrailingSlash l) = stripTrailingSlash (lowerL l) := by
  rcases h : l.getLast? with _ | c
  · have hnil : l = [] := by
      cases l with
      | nil => rfl
      | cons a t => simp at h
    subst hnil
    rfl
  · by_cases hc : c = '/'
    · subst hc
      have h2 : (lowerL l).getLast? = some '/' := by
        rw [lowerL, List.getLast?_map, h]
        rfl
      rw [strip_eq_dropLast h, strip_eq_dropLast h2, lowerL, lowerL, List.map_dropLast]
    · have h2 : (lowerL l).getLast? = some (Char.toLower c) := by
        rw [lowerL, List.getLast?_map, h]
        rfl
      have h3 : Char.toLower c ≠ '/' := fun hx => hc ((toLower_eq_iff_of_lt (by decide)).1 hx)
      rw [strip_eq_of_ne (by rw [h]; exact fun hx => hc (Option.some.inj hx)),
        strip_eq_of_ne (by rw [h2]; exact fun hx => h3 (Option.some.inj hx))]

theorem urlParse_lowerL_none {l : List Char} (h : urlParse l = none) :
    urlParse (lowerL l) = none := by
  unfold urlParse at h ⊢
  rw [dropWhile_lowerL notColon_toLower, takeWhile_lowerL notColon_toLower, prefix3_lowerL,
    schemeOK_lowerL, drop_lowerL]
  by_cases h1 : [':', '/', '/'].isPrefixOf (l.dropWhile notColon)
  · rw [if_pos h1] at h ⊢
    by_cases h2 : schemeOK (l.takeWhile notColon) = true
    · rw [if_pos h2] at h ⊢
      unfold parseAfterAuthority at h ⊢
      rw [hostOf_lowerL, lowerL_isEmpty]
      by_cases h3 : (hostOf ((l.dropWhile notColon).drop 3)).isEmpty = true
      · rw [if_pos h3]
      · rw [if_neg h3] at h
        exact absurd h (by simp)
    · rw [if_neg h2]
  · rw [if_neg h1]

theorem takeWhile_append_single_false {p : Char → Bool} {y : Char} (hy : p y = false) :
    ∀ xs : List Char, (xs ++ [y]).takeWhile p = xs.takeWhile p := by
  intro xs
  induction xs with
  | nil => simp [List.takeWhile_cons, hy]
  | cons a t ih =>
    rw [List.cons_append, List.takeWhile_cons, List.takeWhile_cons, ih]

theorem urlParse_append_slash {l : List Char} {p : UrlParts} (h : urlParse l = some p) :
    ∃ p2, urlParse (l ++ ['/']) = some p2 := by
  unfold urlParse at h ⊢
  by_cases h1 : [':', '/', '/'].isPrefixOf (l.dropWhile notColon)
  · rw [if_pos h1] at h
    by_cases h2 : schemeOK (l.takeWhile notColon) = true
    · rw [if_pos h2] at h
      have hdne : l.dropWhile notColon ≠ [] := by
        intro hx
        rw [hx] at h1
        exact absurd h1 (by decide)
      have hdrop : (l ++ ['/']).dropWhile notColon = l.dropWhile notColon ++ ['/'] := by
        rw [List.dropWhile_append]
        rw [if_neg (by simpa using hdne)]
      have htake : (l ++ ['/']).takeWhile notColon = l.takeWhile notColon := by
        rw [List.takeWhile_append]
        rw [if_neg ?_]
        intro hlen
        have hself : l.takeWhile notColon = l :=
          (List.takeWhile_sublist _).eq_of_length hlen
        have hall : ∀ c ∈ l, notColon c = true := List.takeWhile_eq_self_iff.1 hself
        exact hdne (List.dropWhile_eq_nil_iff.mpr hall)
      have hpre2 : [':', '/', '/'].isPrefixOf (l.dropWhile notColon ++ ['/']) = true := by
        rw [List.isPrefixOf_iff_prefix] at h1 ⊢
        exact h1.trans (List.prefix_append _ _)
      have hlen3 : 3 ≤ (l.dropWhile notColon).length := by
        rw [List.isPrefixOf_iff_prefix] at h1
        simpa using h1.length_le
      rw [hdrop, htake, hpre2, if_pos rfl, if_pos h2,
        List.drop_append_of_le_length hlen3]
      unfold parseAfterAuthority at h ⊢
      have hH : hostOf (List.drop 3 (List.dropWhile notColon l) ++ ['/'])
          = hostOf (List.drop 3 (List.dropWhile notColon l)) :=
        takeWhile_append_single_false (by decide) _
      rw [hH]
      by_cases h3 : (hostOf ((l.dropWhile notColon).drop 3)).isEmpty = true
      · rw [if_pos h3] at h
        exact absurd h (by simp)
      · rw [if_neg h3]
        exact ⟨_, rfl⟩
    · rw [if_neg h2] at h
      exact absurd h (by simp)
  · rw [if_neg h1] at h
    exact absurd h (by simp)

theorem urlParse_strip_none {l : List Char} (h : urlParse l = none) :
    urlParse (stripTrailingSlash l) = none := by
  rcases hg : l.getLast? with _ | c
  · rwa [strip_eq_of_ne (by rw [hg]; exact fun hx => by cases hx)]
  · by_cases hc : c = '/'
    · subst hc
      rw [strip_eq_dropLast hg]
      rcases hp : urlParse l.dropLast with _ | p
      · rfl
      · exfalso
        obtain ⟨p2, hp2⟩ := urlParse_append_slash hp
        have hl : l.dropLast ++ ['/'] = l := by
          have hne : l ≠ [] := by
            intro hx
            rw [hx] at hg
            simp at hg
          have h1 := List.dropLast_append_getLast hne
          have h2 : l.getLast hne = '/' := by
            have h3 := List.getLast?_eq_getLast l hne
            rw [hg] at h3
            exact (Option.some.inj h3).symm
          rw [h2] at h1
          exact h1
        rw [hl] at hp2
        rw [hp2] at h
        cases h
    · rwa [strip_eq_of_ne (by rw [hg]; exact fun hx => hc (Option.some.inj hx))]

theorem searchOf_spec (r5 : List Char) :
    searchOf r5 = [] ∨
      ∃ q, q ≠ [] ∧ (∀ c ∈ q, notHash c = true) ∧ searchOf r5 = '?' :: q := by
  rcases r5 with _ | ⟨c, r6⟩
  · exact Or.inl rfl
  by_cases hc : c = '?'
  · subst hc
    have hred : searchOf ('?' :: r6) =
        if (r6.takeWhile notHash).isEmpty then [] else '?' :: r6.takeWhile notHash := rfl
    rw [hred]
    by_cases he : (r6.takeWhile notHash).isEmpty = true
    · rw [if_pos he]
      exact Or.inl rfl
    · rw [if_neg he]
      refine Or.inr ⟨r6.takeWhile notHash, ?_, ?_, rfl⟩
      · intro hx
        rw [hx] at he
        exact he rfl
      · intro c hcm
        exact List.mem_takeWhile_imp hcm
  · left
    unfold searchOf
    split
    · next heq => exact absurd (List.cons.inj heq).1 hc
    · rfl

theorem pathOf_cases (r4 : List Char) :
    (pathOf r4 = r4.takeWhile pathChar ∧ afterPath r4 = r4.dropWhile pathChar ∧
      r4.head? = some '/') ∨
    (pathOf r4 = [] ∧ afterPath r4 = r4) := by
  rcases r4 with _ | ⟨c, t⟩
  · exact Or.inr ⟨rfl, rfl⟩
  by_cases hc : c = '/'
  · subst hc
    exact Or.inl ⟨rfl, rfl, rfl⟩
  · refine Or.inr ⟨?_, ?_⟩
    · unfold pathOf
      split
      · next heq => exact absurd (List.cons.inj heq).1 hc
      · rfl
    · unfold afterPath
      split
      · next heq => exact absurd (List.cons.inj heq).1 hc
      · rfl

theorem urlParse_inv {l : List Char} {p : UrlParts} (h : urlParse l = some p) :
    schemeOK p.scheme = true ∧ (∀ c ∈ p.scheme, notColon c = true) ∧
    lowerL p.scheme = p.scheme ∧
    p.host ≠ [] ∧ (∀ c ∈ p.host, hostChar c = true) ∧ lowerL p.host = p.host ∧
    p.pathname.head? = some '/' ∧ (∀ c ∈ p.pathname, pathChar c = true) ∧
    (p.search = [] ∨ ∃ q, q ≠ [] ∧ (∀ c ∈ q, notHash c = true) ∧ p.search = '?' :: q) := by
  unfold urlParse at h
  by_cases h1 : [':', '/', '/'].isPrefixOf (l.dropWhile notColon) = true
  · rw [if_pos h1] at h
    by_cases h2 : schemeOK (l.takeWhile notColon) = true
    · rw [if_pos h2] at h
      unfold parseAfterAuthority at h
      by_cases h3 : (hostOf ((l.dropWhile notColon).drop 3)).isEmpty = true
      · rw [if_pos h3] at h
        cases h
      · rw [if_neg h3] at h
        injection h with h4
        subst h4
        refine ⟨?_, ?_, lowerL_idem _, ?_, ?_, lowerL_idem _, ?_, ?_, ?_⟩
        · rw [schemeOK_lowerL]
          exact h2
        · intro c hc
          obtain ⟨c0, hc0, rfl⟩ := List.mem_map.1 hc
          rw [notColon_toLower]
          exact List.mem_takeWhile_imp hc0
        · intro hx
          have := congrArg List.isEmpty hx
          rw [lowerL_isEmpty] at this
          rw [List.isEmpty_iff.1 this] at h3
          exact h3 rfl
        · intro c hc
          obtain ⟨c0, hc0, rfl⟩ := List.mem_map.1 hc
          rw [hostChar_toLower]
          exact List.mem_takeWhile_imp hc0
        · rcases pathOf_cases (afterHost ((l.dropWhile notColon).drop 3)) with
            ⟨hp1, _, hp3⟩ | ⟨hp1, _⟩
          · by_cases he : (pathOf (afterHost ((l.dropWhile notColon).drop 3))).isEmpty = true
            · rw [if_pos he]
              rfl
            · rw [if_neg he, hp1]
              obtain ⟨c0, t0, hct⟩ : ∃ c0 t0,
                  afterHost ((l.dropWhile notColon).drop 3) = c0 :: t0 := by
                rcases hx : afterHost ((l.dropWhile notColon).drop 3) with _ | ⟨c0, t0⟩
                · rw [hx] at hp3
                  cases hp3
                · exact ⟨c0, t0, rfl⟩
              have hc0 : c0 = '/' := by
                rw [hct] at hp3
                exact Option.some.inj hp3
              subst hc0
              rw [hct, List.takeWhile_cons, show pathChar '/' = true from rfl]
              rfl
          · rw [hp1]
            rw [if_pos List.isEmpty_nil]
            rfl
        · rcases pathOf_cases (afterHost ((l.dropWhile notColon).drop 3)) with
            ⟨hp1, _, _⟩ | ⟨hp1, _⟩
          · by_cases he : (pathOf (afterHost ((l.dropWhile notColon).drop 3))).isEmpty = true
            · rw [if_pos he]
              intro c hc
              rw [List.mem_singleton.1 hc]
              rfl
            · rw [if_neg he, hp1]
              intro c hc
              exact List.mem_takeWhile_imp hc
          · rw [hp1]
            rw [if_pos List.isEmpty_nil]
            intro c hc
            rw [List.mem_singleton.1 hc]
            rfl
        · exact searchOf_spec _
    · rw [if_neg h2] at h
      cases h
  · rw [if_neg h1] at h
    cases h

theorem urlParse_render (scheme host pathname search : List Char)
    (hOK : schemeOK scheme = true)
    (hsNC : ∀ c ∈ scheme, notColon c = true)
    (hsL : lowerL scheme = scheme)
    (hh : host ≠ [])
    (hhc : ∀ c ∈ host, hostChar c = true)
    (hhL : lowerL host = host)
    (hph : pathname.head? = some '/')
    (hpc : ∀ c ∈ pathname, pathChar c = true)
    (hse : search = [] ∨ ∃ q, q ≠ [] ∧ (∀ c ∈ q, notHash c = true) ∧ search = '?' :: q) :
    urlParse (renderParts ⟨scheme, host, pathname, search⟩) = some ⟨scheme, host,
      (if (stripTrailingSlash pathname).isEmpty then ['/'] else stripTrailingSlash pathname),
      search⟩ := by
  have hspc : ∀ c ∈ stripTrailingSlash pathname, pathChar c = true := by
    intro c hc
    apply hpc
    unfold stripTrailingSlash at hc
    revert hc
    split
    · exact fun hc => (List.dropLast_sublist pathname).subset hc
    · exact fun hc => hc
  have hsph : stripTrailingSlash pathname = [] ∨
      ∃ t, stripTrailingSlash pathname = '/' :: t := by
    obtain ⟨t0, rfl⟩ : ∃ t0, pathname = '/' :: t0 := by
      rcases pathname with _ | ⟨c, t⟩
      · cases hph
      · exact ⟨t, by rw [Option.some.inj hph]⟩
    by_cases hg : ('/' :: t0).getLast? = some '/'
    · rw [strip_eq_dropLast hg]
      rcases t0 with _ | ⟨a, t1⟩
      · exact Or.inl rfl
      · exact Or.inr ⟨(a :: t1).dropLast, rfl⟩
    · rw [strip_eq_of_ne hg]
      exact Or.inr ⟨t0, rfl⟩
  set sp := stripTrailingSlash pathname with hsp
  have hrender : renderParts ⟨scheme, host, pathname, search⟩
      = scheme ++ ':' :: '/' :: '/' :: (host ++ (sp ++ search)) := by
    simp [renderParts, hsp]
  rw [hrender]
  unfold urlParse
  rw [takeWhile_append_stop hsNC (by decide), dropWhile_append_stop hsNC (by decide)]
  rw [show ([':', '/', '/'].isPrefixOf (':' :: '/' :: '/' :: (host ++ (sp ++ search)))) = true
    from by simp [List.isPrefixOf]]
  rw [if_pos rfl, if_pos hOK]
  rw [show List.drop 3 (':' :: '/' :: '/' :: (host ++ (sp ++ search))) = host ++ (sp ++ search)
    from rfl]
  have hHost : hostOf (host ++ (sp ++ search)) = host ∧
      afterHost (host ++ (sp ++ search)) = sp ++ search := by
    rcases hsph with hspE | ⟨t, hspT⟩
    · rcases hse with hseE | ⟨q, hqne, hqc, hseQ⟩
      · rw [hspE, hseE]
        simp only [List.nil_append, List.append_nil]
        exact ⟨takeWhile_all_eq hhc, List.dropWhile_eq_nil_iff.mpr hhc⟩
      · rw [hspE, hseQ]
        simp only [List.nil_append]
        exact ⟨takeWhile_append_stop hhc (by decide), dropWhile_append_stop hhc (by decide)⟩
    · rw [hspT]
      simp only [List.cons_append]
      exact ⟨takeWhile_append_stop hhc (by decide), dropWhile_append_stop hhc (by decide)⟩
  unfold parseAfterAuthority
  rw [hHost.1, hHost.2]
  rw [if_neg (by simp [hh])]
  have hPath : pathOf (sp ++ search) = sp ∧ afterPath (sp ++ search) = search := by
    rcases hsph with hspE | ⟨t, hspT⟩
    · rcases hse with hseE | ⟨q, hqne, hqc, hseQ⟩
      · rw [hspE, hseE]
        exact ⟨rfl, rfl⟩
      · rw [hspE, hseQ]
        exact ⟨rfl, rfl⟩
    · rcases hse with hseE | ⟨q, hqne, hqc, hseQ⟩
      · rw [hspT, hseE]
        simp only [List.append_nil, List.cons_append]
        constructor
        · show List.takeWhile pathChar ('/' :: t) = '/' :: t
          rw [← hspT]
          exact takeWhile_all_eq hspc
        · show List.dropWhile pathChar ('/' :: t) = []
          rw [← hspT]
          exact List.dropWhile_eq_nil_iff.mpr hspc
      · rw [hspT, hseQ]
        simp only [List.cons_append]
        rw [hspT] at hspc
        have hshape : '/' :: (t ++ '?' :: q) = ('/' :: t) ++ '?' :: q := by simp
        constructor
        · show List.takeWhile pathChar ('/' :: (t ++ '?' :: q)) = '/' :: t
          rw [hshape]
          exact takeWhile_append_stop hspc (by decide)
        · show List.dropWhile pathChar ('/' :: (t ++ '?' :: q)) = '?' :: q
          rw [hshape]
          exact dropWhile_append_stop hspc (by decide)
  rw [hPath.1, hPath.2]
  have hSearch : searchOf search = search := by
    rcases hse with hseE | ⟨q, hqne, hqc, hseQ⟩
    · rw [hseE]
      rfl
    · rw [hseQ]
      have hred : searchOf ('?' :: q) =
          if (q.takeWhile notHash).isEmpty then [] else '?' :: q.takeWhile notHash := rfl
      rw [hred, takeWhile_all_eq hqc]
      rw [if_neg (by simp [hqne])]
  rw [hSearch, hsL, hhL]

/-- The residual-slash condition: after one normalization pass the stripped
component does not itself still end in '/'. Exactly when this holds, a second
pass has nothing more to strip. -/
def noResidualSlash (url : String) : Bool :=
  match urlParse url.data with
  | some p => !((stripTrailingSlash p.pathname).getLast? == some '/')
  | none => !((stripTrailingSlash (lowerL url.data)).getLast? == some '/')

/-- C9 amended: `normalizeUrl` strips only a single trailing slash (from the
pathname on parse success, from the lowercased input on parse failure), so
idempotence holds exactly on inputs whose stripped component does not still
end in a slash; `normalizeUrl (normalizeUrl u) = normalizeUrl u` for every
such `u`. -/
theorem normalizeUrl_idempotent_of_noResidualSlash (url : String)
    (h : noResidualSlash url = true) :
    normalizeUrl (normalizeUrl url) = normalizeUrl url := by
  unfold noResidualSlash at h
  rcases hp : urlParse url.data with _ | p
  · rw [hp] at h
    replace h : (stripTrailingSlash (lowerL url.data)).getLast? ≠ some '/' := by
      simpa using h
    have h1 : normalizeUrl url = ⟨stripTrailingSlash (lowerL url.data)⟩ := by
      unfold normalizeUrl
      rw [hp]
    rw [h1]
    have h2 : urlParse (stripTrailingSlash (lowerL url.data)) = none :=
      urlParse_strip_none (urlParse_lowerL_none hp)
    unfold normalizeUrl
    rw [show (⟨stripTrailingSlash (lowerL url.data)⟩ : String).data
        = stripTrailingSlash (lowerL url.data) from rfl, h2]
    show (⟨stripTrailingSlash (lowerL (stripTrailingSlash (lowerL url.data)))⟩ : String)
        = ⟨stripTrailingSlash (lowerL url.data)⟩
    congr 1
    rw [lowerL_strip, lowerL_idem]
    exact strip_eq_of_ne h
  · have hres : (stripTrailingSlash p.pathname).getLast? ≠ some '/' := by
      rw [hp] at h
      simpa using h
    have h1 : normalizeUrl url = ⟨renderParts p⟩ := by
      unfold normalizeUrl
      rw [hp]
    rw [h1]
    obtain ⟨hOK, hsNC, hsL, hh, hhc, hhL, hph, hpc, hse⟩ := urlParse_inv hp
    obtain ⟨scheme, host, pathname, search⟩ := p
    have h2 := urlParse_render scheme host pathname search hOK hsNC hsL hh hhc hhL hph hpc hse
    unfold normalizeUrl
    rw [show (⟨renderParts ⟨scheme, host, pathname, search⟩⟩ : String).data
        = renderParts ⟨scheme, host, pathname, search⟩ from rfl, h2]
    congr 1
    unfold renderParts
    simp only
    have hX : stripTrailingSlash (if (stripTrailingSlash pathname).isEmpty then ['/']
        else stripTrailingSlash pathname) = stripTrailingSlash pathname := by
      by_cases he : (stripTrailingSlash pathname).isEmpty = true
      · rw [if_pos he]
        rw [List.isEmpty_iff.1 he]
        rfl
      · rw [if_neg he]
        exact strip_eq_of_ne hres
    rw [hX]

/-! ## Unified search aggregator

Embedded from `UnifiedSearchService` (`search`, `mergeResults`,
`interleaveResults`, `weightedCombine`, `deduplicateResults`). The injected
adapters are modelled by the list of per-source result lists the settled
fan-out produced (a failed adapter contributes `[]`, as the aggregator's
per-provider catch does). -/

/-- JS `x || d` on an optional number: `undefined` and `0` are falsy. -/
def jsOrQ (x : Option ℚ) (d : ℚ) : ℚ :=
  match x with
  | some v => if v = 0 then d else v
  | none => d

/-- JS `x || d` on an optional integer count. -/
def jsOrNat (x : Option Nat) (d : Nat) : Nat :=
  match x with
  | some 0 => d
  | some v => v
  | none => d

/-- The metadata keys the aggregator reads or writes; other keys are opaque
and never inspected. -/
structure SearchMetadata where
  sources : Option (List String)
  sourceCount : Option Nat
  merged : Bool
deriving DecidableEq

/-- An empty metadata object. -/
def emptyMeta : SearchMetadata := ⟨none, none, false⟩

/-- A search hit. `weight` is `none` on adapter output and is set by the
aggregator's tagging step; `relevanceScore` is optional as in the source. -/
structure SearchResult where
  title : String
  url : String
  snippet : String
  source : String
  relevanceScore : Option ℚ
  weight : Option ℚ
  metadata : SearchMetadata
deriving DecidableEq

/-- The deduplication identity of a result. -/
def resultKey (r : SearchResult) : String := normalizeUrl r.url

/-- Spread-merge `{...a, ...b, merged: true}` on the modelled metadata keys. -/
def mergeMetadata (a b : SearchMetadata) : SearchMetadata :=
  ⟨(match b.sources with | some s => some s | none => a.sources),
   (match b.sourceCount with | some n => some n | none => a.sourceCount),
   true⟩

/-- `UnifiedSearchOptions` (the fields `search` destructures). -/
structure UnifiedSearchOptions where
  maxResults : Option Nat
  sources : Option (List String)
  combineStrategy : Option String
  weights : Option (List (String × ℚ))
  deduplicate : Option Bool
  maxResultsPerSource : Option Nat
deriving DecidableEq

/-- The aggregator's default per-provider weights. -/
def defaultWeights : List (String × ℚ) :=
  [("google", 12/10), ("duckduckgo", 1), ("tavily", 11/10),
   ("context7", 13/10), ("langsearch", 115/100)]

/-- Lookup `weights[source]`. -/
def lookupWeight (ws : List (String × ℚ)) (s : String) : Option ℚ :=
  (ws.find? (fun p => p.1 == s)).map (fun p => p.2)

/-- Stable descending insertion for `sortByDesc`. -/
def insertDesc (key : SearchResult → ℚ) (x : SearchResult) :
    List SearchResult → List SearchResult
  | [] => [x]
  | y :: ys => if key y ≤ key x then x :: y :: ys else y :: insertDesc key x ys

/-- Stable sort, descending by `key`: the model of `Array.prototype.sort`
with comparator `(b, a) => key b - key a` (stable per the ES spec). -/
def sortByDesc (key : SearchResult → ℚ) (l : List SearchResult) : List SearchResult :=
  l.foldr (insertDesc key) []

/-- `mergeResults`: flatten and sort by `(relevanceScore || 0) * (weight || 1)`. -/
def mergeResults (results : List SearchResult) : List SearchResult :=
  sortByDesc (fun r => jsOrQ r.relevanceScore 0 * jsOrQ r.weight 1) results

/-- `interleaveResults`: round-robin across the per-adapter lists. -/
def interleaveResults (resultSets : List (List SearchResult)) : List SearchResult :=
  (List.range ((resultSets.map List.length).foldr max 0)).flatMap
    (fun i => resultSets.filterMap (fun s => s.get? i))

/-- Append a result to its URL group, preserving first-seen key order (the
insertion-order semantics of the source's `Map`). -/
def groupInsert (k : String) (r : SearchResult) :
    List (String × List SearchResult) → List (String × List SearchResult)
  | [] => [(k, [r])]
  | (k2, g) :: rest =>
    if k2 == k then (k2, g ++ [r]) :: rest else (k2, g) :: groupInsert k r rest

/-- The URL-group table `weightedCombine` builds. -/
def urlGroups (results : List SearchResult) : List (String × List SearchResult) :=
  results.foldl (fun m r => groupInsert (resultKey r) r m) []

/-- Accumulation of `(totalScore, totalWeight)` over one group. -/
def groupTotals (g : List SearchResult) : ℚ × ℚ :=
  g.foldl
    (fun t r => (t.1 + jsOrQ r.relevanceScore (1/2) * jsOrQ r.weight 1,
                 t.2 + jsOrQ r.weight 1)) (0, 0)

/-- The group member kept as representative: the first member, replaced by
any later member with a non-empty strictly longer snippet. -/
def bestOf (first : SearchResult) (g : List SearchResult) : SearchResult :=
  g.foldl
    (fun best r =>
      if !(r.snippet == "") && decide (best.snippet.length < r.snippet.length) then r
      else best) first

/-- JS `Array.prototype.join` with a separator. -/
def joinSep (sep : String) : List String → String
  | [] => ""
  | [x] => x
  | x :: y :: xs => x ++ sep ++ joinSep sep (y :: xs)

/-- One combined entry of `weightedCombine` (groups are never empty; the
nil case is unreachable). -/
def combineGroup (kg : String × List SearchResult) : SearchResult :=
  match kg.2 with
  | [] => ⟨"", "", "", "", none, none, emptyMeta⟩
  | h :: t =>
    let tw := groupTotals (h :: t)
    let best := bestOf h (h :: t)
    { best with
      relevanceScore := some (if 0 < tw.2 then tw.1 / tw.2 else 0),
      source := if 1 < (h :: t).length then
          "Multiple (" ++ joinSep ", " ((h :: t).map (fun r => r.source)) ++ ")"
        else best.source,
      metadata := ⟨some ((h :: t).map (fun r => r.source)), some (h :: t).length,
        best.metadata.merged⟩ }

/-- `weightedCombine`: group by normalized URL, combine each group, sort
descending by `relevanceScore || 0`. -/
def weightedCombine (results : List SearchResult) : List SearchResult :=
  sortByDesc (fun r => jsOrQ r.relevanceScore 0) ((urlGroups results).map combineGroup)

/-- Whether an incoming duplicate replaces the stored entry: better score or
non-empty longer snippet. -/
def betterResult (r existing : SearchResult) : Bool :=
  decide (jsOrQ existing.relevanceScore 0 < jsOrQ r.relevanceScore 0) ||
    (!(r.snippet == "") && decide (existing.snippet.length < r.snippet.length))

/-- The duplicate-handling step of `deduplicateResults`: look up the stored
entry with the same normalized URL and replace it in place when the incoming
result is better. -/
def dedupStep (acc : List SearchResult) (r : SearchResult) : List SearchResult :=
  match acc.findIdx? (fun x => resultKey x == resultKey r) with
  | some i =>
    match acc.get? i with
    | some existing =>
      if betterResult r existing then
        acc.set i { r with metadata := mergeMetadata existing.metadata r.metadata }
      else acc
    | none => acc
  | none => acc

/-- The loop of `deduplicateResults`: a seen-set of normalized URLs and the
accumulated list; a duplicate may replace the stored entry in place. -/
def dedupAux (seen : List String) (acc : List SearchResult) :
    List SearchResult → List SearchResult
  | [] => acc
  | r :: rest =>
    if seen.contains (resultKey r) then
      dedupAux seen (dedupStep acc r) rest
    else dedupAux (seen ++ [resultKey r]) (acc ++ [r]) rest

/-- `deduplicateResults`. -/
def deduplicateResults (results : List SearchResult) : List SearchResult :=
  dedupAux [] [] results

/-- The requested sources that are actually registered. -/
def availableSourcesOf (svc : List (String × List SearchResult))
    (opts : UnifiedSearchOptions) : List String :=
  (opts.sources.getD (svc.map (fun p => p.1))).filter
    (fun s => (svc.map (fun p => p.1)).contains s)

/-- Tagging of one adapter result with its source name and configured
weight, `{...result, source, weight: weights[source] || 1.0}`. -/
def tagResult (s : String) (w : ℚ) (r : SearchResult) : SearchResult :=
  { r with source := s, weight := some w }

/-- The per-source result lists after the parallel fan-out settles, each
list tagged; a missing source contributes `[]`. -/
def taggedResultsOf (svc : List (String × List SearchResult))
    (opts : UnifiedSearchOptions) : List (List SearchResult) :=
  (availableSourcesOf svc opts).map (fun s =>
    (((svc.find? (fun p => p.1 == s)).map (fun p => p.2)).getD []).map
      (tagResult s (jsOrQ (lookupWeight (opts.weights.getD defaultWeights) s) 1)))

/-- Strategy dispatch of `search` (default and unknown strategies combine
weighted). -/
def combineByStrategy (strategy : String) (perSource : List (List SearchResult)) :
    List SearchResult :=
  match strategy with
  | "merge" => mergeResults perSource.flatten
  | "interleave" => interleaveResults perSource
  | _ => weightedCombine perSource.flatten

/-- `UnifiedSearchService.search`, over the settled per-source results
`svc`: filter to available sources, tag each result with its source name and
weight, combine per strategy, optionally deduplicate, and truncate. -/
def searchUnified (svc : List (String × List SearchResult)) (query : String)
    (opts : UnifiedSearchOptions) : List SearchResult :=
  if (availableSourcesOf svc opts).isEmpty then []
  else
    (if opts.deduplicate.getD true = true then
        deduplicateResults (combineByStrategy (opts.combineStrategy.getD "weighted")
          (taggedResultsOf svc opts))
      else combineByStrategy (opts.combineStrategy.getD "weighted")
        (taggedResultsOf svc opts)).take (jsOrNat opts.maxResults 20)

theorem set_get_self : ∀ (l : List String) (i : Nat) (h : i < l.length),
    l.set i (l.get ⟨i, h⟩) = l := by
  intro l
  induction l with
  | nil =>
    intro i h
    exact absurd h (by simp)
  | cons a t ih =>
    intro i h
    cases i with
    | zero => rfl
    | succ n =>
      show a :: t.set n (t.get ⟨n, _⟩) = a :: t
      rw [ih n (by simpa using h)]

theorem dedupStep_map_key (acc : List SearchResult) (r : SearchResult) :
    (dedupStep acc r).map resultKey = acc.map resultKey := by
  unfold dedupStep
  split
  · next i hf =>
    split
    · next existing hg =>
      split
      · next hb =>
        rw [List.map_set]
        obtain ⟨hlt, hpi, _⟩ := List.findIdx?_eq_some_iff_getElem.1 hf
        have hex : existing = acc.get ⟨i, hlt⟩ := by
          rw [List.get?_eq_getElem?, List.getElem?_eq_getElem hlt] at hg
          exact (Option.some.inj hg).symm
        have hpe : resultKey existing = resultKey r := by
          rw [hex]
          exact beq_iff_eq.1 hpi
        have hkey : resultKey { r with metadata := mergeMetadata existing.metadata r.metadata }
            = resultKey r := rfl
        rw [hkey, ← hpe, hex]
        have hlt2 : i < (acc.map resultKey).length := by simpa using hlt
        have hmapget : resultKey (acc.get ⟨i, hlt⟩) = (acc.map resultKey).get ⟨i, hlt2⟩ := by
          simp
        rw [hmapget, set_get_self]
      · rfl
    · rfl
  · rfl

theorem dedupAux_pairwise :
    ∀ (l : List SearchResult) (seen : List String) (acc : List SearchResult),
      (∀ s ∈ acc.map resultKey, s ∈ seen) →
      (acc.map resultKey).Pairwise (· ≠ ·) →
      ((dedupAux seen acc l).map resultKey).Pairwise (· ≠ ·) := by
  intro l
  induction l with
  | nil =>
    intro seen acc hmem hp
    exact hp
  | cons r rest ih =>
    intro seen acc hmem hp
    unfold dedupAux
    by_cases hseen : seen.contains (resultKey r) = true
    · rw [if_pos hseen]
      apply ih seen (dedupStep acc r)
      · rw [dedupStep_map_key]
        exact hmem
      · rw [dedupStep_map_key]
        exact hp
    · rw [if_neg hseen]
      apply ih (seen ++ [resultKey r]) (acc ++ [r])
      · intro s hs
        rw [List.map_append] at hs
        rcases List.mem_append.1 hs with hs1 | hs2
        · exact List.mem_append.2 (Or.inl (hmem s hs1))
        · exact List.mem_append.2 (Or.inr hs2)
      · rw [List.map_append]
        rw [List.pairwise_append]
        refine ⟨hp, List.pairwise_singleton _ _, ?_⟩
        intro a ha b hb
        have hb2 : b = resultKey r := List.mem_singleton.1 hb
        subst hb2
        intro hak
        apply hseen
        show List.elem (resultKey r) seen = true
        exact List.elem_iff.2 (hak ▸ hmem a ha)

theorem deduplicateResults_pairwise (results : List SearchResult) :
    ((deduplicateResults results).map resultKey).Pairwise (· ≠ ·) :=
  dedupAux_pairwise results [] [] (by simp) (by simp)

/-- C4: with `deduplicate = true` (the default), no two results returned by
`UnifiedSearchService.search` share a normalized URL. -/
theorem search_deduplicated_urls_distinct (svc : List (String × List SearchResult))
    (query : String) (opts : UnifiedSearchOptions)
    (h : opts.deduplicate.getD true = true) :
    List.Pairwise (fun a b => resultKey a ≠ resultKey b) (searchUnified svc query opts) := by
  unfold searchUnified
  by_cases hA : (availableSourcesOf svc opts).isEmpty = true
  · rw [if_pos hA]
    exact List.Pairwise.nil
  · rw [if_neg hA, if_pos h]
    have hp := deduplicateResults_pairwise (combineByStrategy
      (opts.combineStrategy.getD "weighted") (taggedResultsOf svc opts))
    rw [List.pairwise_map] at hp
    exact List.Pairwise.sublist (List.take_sublist _ _) hp

theorem mem_insertDesc (key : SearchResult → ℚ) (x a : SearchResult) :
    ∀ l : List SearchResult, a ∈ insertDesc key x l ↔ a = x ∨ a ∈ l := by
  intro l
  induction l with
  | nil => simp [insertDesc]
  | cons y ys ih =>
    unfold insertDesc
    by_cases hc : key y ≤ key x
    · rw [if_pos hc]
      simp
    · rw [if_neg hc]
      simp only [List.mem_cons, ih]
      tauto

theorem mem_sortByDesc (key : SearchResult → ℚ) (a : SearchResult) :
    ∀ l : List SearchResult, a ∈ sortByDesc key l ↔ a ∈ l := by
  intro l
  induction l with
  | nil => simp [sortByDesc]
  | cons y ys ih =>
    show a ∈ insertDesc key y (sortByDesc key ys) ↔ _
    rw [mem_insertDesc, ih]
    simp

theorem groupInsert_keys (k : String) (r : SearchResult) :
    ∀ m : List (String × List SearchResult),
      (groupInsert k r m).map Prod.fst =
        if k ∈ m.map Prod.fst then m.map Prod.fst else m.map Prod.fst ++ [k] := by
  intro m
  induction m with
  | nil => simp [groupInsert]
  | cons kg rest ih =>
    obtain ⟨k2, g⟩ := kg
    unfold groupInsert
    by_cases hc : k2 == k
    · rw [if_pos hc]
      have hk2 : k2 = k := beq_iff_eq.1 hc
      subst hk2
      simp
    · rw [if_neg hc]
      have hk2 : k2 ≠ k := fun hx => hc (beq_iff_eq.2 hx)
      simp only [List.map_cons, ih]
      by_cases hin : k ∈ rest.map Prod.fst
      · rw [if_pos hin, if_pos (by simp [hin])]
      · rw [if_neg hin, if_neg ?hc2]
        · rfl
        · simp only [List.map_cons, List.mem_cons]
          rintro (hx | hx)
          · exact hk2 hx.symm
          · exact hin hx

theorem filter_singleton_none {r : SearchResult} {k2 : String} (h : resultKey r ≠ k2) :
    [r].filter (fun x => resultKey x == k2) = [] := by
  rw [List.filter_cons, if_neg (by simpa only [beq_iff_eq] using h)]
  rfl

theorem filter_singleton_self {r : SearchResult} {k2 : String} (h : resultKey r = k2) :
    [r].filter (fun x => resultKey x == k2) = [r] := by
  rw [List.filter_cons, if_pos (by simpa only [beq_iff_eq] using h)]
  rfl

theorem groupInsert_groups {k : String} {r : SearchResult} (hk : k = resultKey r)
    (pr : List SearchResult) :
    ∀ m : List (String × List SearchResult),
      (∀ kg ∈ m, kg.2 = pr.filter (fun x => resultKey x == kg.1) ∧ kg.2 ≠ []) →
      (m.map Prod.fst).Nodup →
      (k ∉ m.map Prod.fst → pr.filter (fun x => resultKey x == k) = []) →
      ∀ kg ∈ groupInsert k r m,
        kg.2 = (pr ++ [r]).filter (fun x => resultKey x == kg.1) ∧ kg.2 ≠ [] := by
  intro m
  induction m with
  | nil =>
    intro hgr hnd hfresh kg hkg
    have hkg2 : kg = (k, [r]) := by simpa [groupInsert] using hkg
    subst hkg2
    have hpr : pr.filter (fun x => resultKey x == k) = [] := hfresh (by simp)
    constructor
    · show [r] = _
      rw [List.filter_append, hpr, filter_singleton_self hk.symm]
      rfl
    · simp
  | cons kg0 rest ih =>
    intro hgr hnd hfresh kg hkg
    obtain ⟨k2, g⟩ := kg0
    unfold groupInsert at hkg
    by_cases hc : (k2 == k) = true
    · rw [if_pos hc] at hkg
      have hk2 : k2 = k := beq_iff_eq.1 hc
      subst hk2
      rcases List.mem_cons.1 hkg with hhd | htl
      · subst hhd
        have hg1 : g = pr.filter (fun x => resultKey x == k2) := (hgr (k2, g) (by simp)).1
        constructor
        · show g ++ [r] = _
          rw [List.filter_append, ← hg1, filter_singleton_self hk.symm]
        · simp
      · have hg := hgr kg (List.mem_cons_of_mem _ htl)
        have hne : kg.1 ≠ k2 := by
          intro hx
          have hnd2 := (List.pairwise_cons.1 hnd).1
          exact hnd2 kg.1 (List.mem_map_of_mem Prod.fst htl) hx.symm
        constructor
        · rw [List.filter_append,
            filter_singleton_none (fun hx => hne (hk.trans hx).symm)]
          rw [List.append_nil]
          exact hg.1
        · exact hg.2
    · rw [if_neg hc] at hkg
      have hk2 : k2 ≠ k := fun hx => hc (beq_iff_eq.2 hx)
      rcases List.mem_cons.1 hkg with hhd | htl
      · subst hhd
        have hg1 : g = pr.filter (fun x => resultKey x == k2) := (hgr (k2, g) (by simp)).1
        constructor
        · show g = _
          rw [List.filter_append, filter_singleton_none (fun hx => hk2 ((hk ▸ hx).symm ▸ rfl))]
          rw [List.append_nil]
          exact hg1
        · exact (hgr (k2, g) (by simp)).2
      · exact ih (fun kg2 h2 => hgr kg2 (List.mem_cons_of_mem _ h2))
          ((List.pairwise_cons.1 hnd).2)
          (fun hnin => hfresh (by
            simp only [List.map_cons, List.mem_cons]
            rintro (hx | hx)
            · exact hk2 hx.symm
            · exact hnin hx))
          kg htl

theorem urlGroups_aux :
    ∀ (l : List SearchResult) (m : List (String × List SearchResult)) (pr : List SearchResult),
      (∀ kg ∈ m, kg.2 = pr.filter (fun x => resultKey x == kg.1) ∧ kg.2 ≠ []) →
      (∀ x ∈ pr, resultKey x ∈ m.map Prod.fst) →
      (m.map Prod.fst).Nodup →
      ∀ kg ∈ l.foldl (fun m2 r => groupInsert (resultKey r) r m2) m,
        kg.2 = (pr ++ l).filter (fun x => resultKey x == kg.1) ∧ kg.2 ≠ [] := by
  intro l
  induction l with
  | nil =>
    intro m pr hgr hcomp hnd kg hkg
    have := hgr kg hkg
    simpa using this
  | cons r rest ih =>
    intro m pr hgr hcomp hnd kg hkg
    have hfresh : resultKey r ∉ m.map Prod.fst →
        pr.filter (fun x => resultKey x == resultKey r) = [] := by
      intro hnin
      rw [List.filter_eq_nil_iff]
      intro x hx
      simp only [beq_iff_eq]
      intro hbeq
      exact hnin (hbeq ▸ hcomp x hx)
    have hgr2 := groupInsert_groups rfl pr m hgr hnd hfresh
    have hcomp2 : ∀ x ∈ pr ++ [r],
        resultKey x ∈ (groupInsert (resultKey r) r m).map Prod.fst := by
      intro x hx
      rw [groupInsert_keys]
      by_cases hin : resultKey r ∈ m.map Prod.fst
      · rw [if_pos hin]
        rcases List.mem_append.1 hx with hx1 | hx2
        · exact hcomp x hx1
        · rw [List.mem_singleton.1 hx2]
          exact hin
      · rw [if_neg hin]
        rcases List.mem_append.1 hx with hx1 | hx2
        · exact List.mem_append.2 (Or.inl (hcomp x hx1))
        · rw [List.mem_singleton.1 hx2]
          exact List.mem_append.2 (Or.inr (by simp))
    have hnd2 : ((groupInsert (resultKey r) r m).map Prod.fst).Nodup := by
      rw [groupInsert_keys]
      by_cases hin : resultKey r ∈ m.map Prod.fst
      · rw [if_pos hin]
        exact hnd
      · rw [if_neg hin]
        rw [List.nodup_append]
        exact ⟨hnd, List.nodup_singleton _, by
          intro a ha hb
          rw [List.mem_singleton.1 hb] at ha
          exact hin ha⟩
    have := ih (groupInsert (resultKey r) r m) (pr ++ [r]) hgr2 hcomp2 hnd2 kg hkg
    rwa [show (pr ++ [r]) ++ rest = pr ++ r :: rest from by simp] at this

theorem urlGroups_spec (results : List SearchResult) :
    ∀ kg ∈ urlGroups results,
      kg.2 = results.filter (fun x => resultKey x == kg.1) ∧ kg.2 ≠ [] := by
  intro kg hkg
  have := urlGroups_aux results [] [] (by simp) (by simp) (by simp) kg hkg
  simpa using this

theorem groupTotals_eq :
    ∀ (g : List SearchResult) (t : ℚ × ℚ),
      g.foldl (fun t r => (t.1 + jsOrQ r.relevanceScore (1/2) * jsOrQ r.weight 1,
        t.2 + jsOrQ r.weight 1)) t =
      (t.1 + (g.map (fun x => jsOrQ x.relevanceScore (1/2) * jsOrQ x.weight 1)).sum,
       t.2 + (g.map (fun x => jsOrQ x.weight 1)).sum) := by
  intro g
  induction g with
  | nil => intro t; simp
  | cons r rest ih =>
    intro t
    rw [List.foldl_cons, ih]
    simp only [List.map_cons, List.sum_cons]
    rw [Prod.mk.injEq]
    constructor <;> ring

theorem bestOf_cons (first y : SearchResult) (t : List SearchResult) :
    bestOf first (y :: t) =
      bestOf (if !(y.snippet == "") && decide (first.snippet.length < y.snippet.length)
        then y else first) t := rfl

theorem bestOf_choice (first : SearchResult) :
    ∀ g : List SearchResult, bestOf first g = first ∨ bestOf first g ∈ g := by
  intro g
  induction g generalizing first with
  | nil => exact Or.inl rfl
  | cons y t ih =>
    rw [bestOf_cons]
    by_cases hc : (!(y.snippet == "") && decide (first.snippet.length < y.snippet.length)) = true
    · rw [if_pos hc]
      rcases ih y with h1 | h2
      · exact Or.inr (by rw [h1]; exact List.mem_cons_self y t)
      · exact Or.inr (List.mem_cons_of_mem _ h2)
    · rw [if_neg hc]
      rcases ih first with h1 | h2
      · exact Or.inl h1
      · exact Or.inr (List.mem_cons_of_mem _ h2)

theorem bestOf_ge_first (first : SearchResult) :
    ∀ g : List SearchResult, first.snippet.length ≤ (bestOf first g).snippet.length := by
  intro g
  induction g generalizing first with
  | nil => exact Nat.le_refl _
  | cons y t ih =>
    rw [bestOf_cons]
    by_cases hc : (!(y.snippet == "") && decide (first.snippet.length < y.snippet.length)) = true
    · rw [if_pos hc]
      have hlt : first.snippet.length < y.snippet.length := by
        have h2 : ¬y.snippet = "" ∧ first.snippet.length < y.snippet.length := by
          simpa using hc
        exact h2.2
      exact Nat.le_trans (Nat.le_of_lt hlt) (ih y)
    · rw [if_neg hc]
      exact ih first

theorem bestOf_max (first : SearchResult) :
    ∀ g : List SearchResult, ∀ x ∈ g, x.snippet.length ≤ (bestOf first g).snippet.length := by
  intro g
  induction g generalizing first with
  | nil =>
    intro x hx
    cases hx
  | cons y t ih =>
    intro x hx
    rw [bestOf_cons]
    rcases List.mem_cons.1 hx with hxy | hxt
    · subst hxy
      by_cases hc : (!(x.snippet == "") && decide (first.snippet.length < x.snippet.length)) = true
      · rw [if_pos hc]
        exact bestOf_ge_first x t
      · rw [if_neg hc]
        have hcf : (!(x.snippet == "") &&
            decide (first.snippet.length < x.snippet.length)) = false :=
          Bool.eq_false_iff.2 hc
        have hle : x.snippet.length ≤ first.snippet.length := by
          rcases Bool.and_eq_false_iff.1 hcf with h1 | h2
          · have hx1 : (x.snippet == "") = true := by simpa using h1
            have hx2 : x.snippet = "" := beq_iff_eq.1 hx1
            rw [hx2]
            exact Nat.zero_le _
          · exact Nat.le_of_not_lt (of_decide_eq_false h2)
        exact Nat.le_trans hle (bestOf_ge_first first t)
    · exact ih _ x hxt

/-- C3 amended: under the weighted strategy, results are grouped by
normalized URL; each combined entry's `relevanceScore` is
`Σ(score·weight)/Σ(weight)` over its group, where a missing — or, by JS
falsiness, zero — score counts as 0.5 and a missing or zero weight as 1.0
(stated for nonnegative total weight; the code returns 0 when the total is
not positive, which agrees with the formula when the total is 0); the
representative entry is a group member of maximal snippet length, and its
`metadata.sources` lists all contributing source tags. -/
theorem weightedCombine_weighted_groups (results : List SearchResult) :
    ∀ r ∈ weightedCombine results,
      ∃ g, g = results.filter (fun x => resultKey x == resultKey r) ∧ g ≠ [] ∧
        (0 ≤ (g.map (fun x => jsOrQ x.weight 1)).sum →
          r.relevanceScore = some
            ((g.map (fun x => jsOrQ x.relevanceScore (1/2) * jsOrQ x.weight 1)).sum /
              (g.map (fun x => jsOrQ x.weight 1)).sum)) ∧
        (∃ b ∈ g, r.url = b.url ∧ r.title = b.title ∧ r.snippet = b.snippet) ∧
        (∀ x ∈ g, x.snippet.length ≤ r.snippet.length) ∧
        r.metadata.sources = some (g.map (fun x => x.source)) := by
  intro r hr
  have hr2 : r ∈ (urlGroups results).map combineGroup := (mem_sortByDesc _ r _).1 hr
  obtain ⟨kg, hkg, hrEq⟩ := List.mem_map.1 hr2
  obtain ⟨hfil, hne⟩ := urlGroups_spec results kg hkg
  obtain ⟨k, g⟩ := kg
  rcases g with _ | ⟨h, t⟩
  · exact absurd rfl hne
  subst hrEq
  have hbmem : bestOf h (h :: t) ∈ h :: t := by
    rcases bestOf_choice h (h :: t) with h1 | h2
    · rw [h1]
      exact List.mem_cons_self h t
    · exact h2
  have hbk : resultKey (bestOf h (h :: t)) = k := by
    have hmem2 : bestOf h (h :: t) ∈
        results.filter (fun x => resultKey x == (k, h :: t).1) := by
      rw [← hfil]
      exact hbmem
    have := (List.mem_filter.1 hmem2).2
    exact beq_iff_eq.1 this
  have hrk : resultKey (combineGroup (k, h :: t)) = k := by
    show normalizeUrl (combineGroup (k, h :: t)).url = k
    rw [show (combineGroup (k, h :: t)).url = (bestOf h (h :: t)).url from rfl]
    exact hbk
  have hfil2 : h :: t =
      results.filter (fun x => resultKey x == resultKey (combineGroup (k, h :: t))) := by
    rw [hrk]
    exact hfil
  refine ⟨h :: t, hfil2, hne, ?_, ?_, ?_, ?_⟩
  · intro hw
    have htot : groupTotals (h :: t) =
        (((h :: t).map (fun x => jsOrQ x.relevanceScore (1/2) * jsOrQ x.weight 1)).sum,
         ((h :: t).map (fun x => jsOrQ x.weight 1)).sum) := by
      unfold groupTotals
      have h0 := groupTotals_eq (h :: t) (0, 0)
      simpa using h0
    show (combineGroup (k, h :: t)).relevanceScore = _
    rw [show (combineGroup (k, h :: t)).relevanceScore =
      some (if 0 < (groupTotals (h :: t)).2 then
        (groupTotals (h :: t)).1 / (groupTotals (h :: t)).2 else 0) from rfl]
    rw [htot]
    rcases lt_or_eq_of_le hw with hlt | heq
    · rw [if_pos hlt]
    · rw [if_neg (by rw [← heq]; exact lt_irrefl 0)]
      rw [← heq, div_zero]
  · exact ⟨bestOf h (h :: t), hbmem, rfl, rfl, rfl⟩
  · intro x hx
    show x.snippet.length ≤ (bestOf h (h :: t)).snippet.length
    exact bestOf_max h (h :: t) x hx
  · rfl

/-- A result carrying an explicit relevance score of 0. -/
def resZeroScore : SearchResult :=
  ⟨"Zero", "https://example.com/z", "s", "tavily", some 0, some 1, emptyMeta⟩

/-- C3 counterexample: a group member with an explicit `relevanceScore` of 0
is scored as 0.5 by `weightedCombine` (JS `|| 0.5` treats 0 as falsy), while
the claim's formula — score defaulting to 0.5 only when absent — yields 0. -/
theorem weightedCombine_zero_score_not_default :
    (weightedCombine [resZeroScore]).map (fun r => r.relevanceScore) = [some (1/2)] ∧
    ([resZeroScore].map (fun x => x.relevanceScore.getD (1/2) * x.weight.getD 1)).sum /
      ([resZeroScore].map (fun x => x.weight.getD 1)).sum = 0 ∧
    some ((1 : ℚ)/2) ≠ some (0 : ℚ) := by
  refine ⟨?_, by norm_num [resZeroScore], by norm_num⟩
  simp only [weightedCombine, urlGroups, List.foldl, groupInsert, sortByDesc, List.foldr,
    insertDesc, List.map, combineGroup, groupTotals, bestOf, jsOrQ, resZeroScore]
  norm_num

/-- The google-tagged duplicate of the worked example (score 0.8, weight 1.2). -/
def resGoogle : SearchResult :=
  ⟨"Example", "https://example.com/page", "google snippet", "google",
    some (8/10), some (12/10), emptyMeta⟩

/-- The duckduckgo-tagged duplicate of the worked example (score 0.6, weight 1.0). -/
def resDuck : SearchResult :=
  ⟨"Example", "https://example.com/page", "longer duckduckgo snippet", "duckduckgo",
    some (6/10), some 1, emptyMeta⟩

/-- The combined entry `weightedCombine` produces for the two duplicates. -/
def resCombinedGD : SearchResult :=
  ⟨"Example", "https://example.com/page", "longer duckduckgo snippet",
    "Multiple (google, duckduckgo)", some (39/55), some 1,
    ⟨some ["google", "duckduckgo"], some 2, false⟩⟩

theorem weightedCombine_example_eval :
    weightedCombine [resGoogle, resDuck] = [resCombinedGD] := by
  simp +decide only [weightedCombine, urlGroups, List.foldl, groupInsert, sortByDesc,
    List.foldr, insertDesc, List.map, combineGroup, groupTotals, bestOf, joinSep,
    jsOrQ, resGoogle, resDuck, resCombinedGD, resultKey, List.cons_append,
    List.nil_append, List.append_nil, List.singleton_append, if_true, if_false]
  norm_num [SearchResult.mk.injEq, SearchMetadata.mk.injEq]
  exact ⟨rfl, rfl⟩

/-- C3 witness: the worked example — one URL from google (0.8, weight 1.2)
and duckduckgo (0.6, weight 1.0) — combines to score 39/55 ≈ 0.709 with both
tags in `metadata.sources`, and the amended theorem applies to it. -/
theorem weightedCombine_weighted_groups_witness :
    weightedCombine [resGoogle, resDuck] = [resCombinedGD] ∧
    resCombinedGD.relevanceScore = some (39/55) ∧
    resCombinedGD.metadata.sources = some ["google", "duckduckgo"] ∧
    ∃ g, g = [resGoogle, resDuck].filter (fun x => resultKey x == resultKey resCombinedGD) ∧
      g ≠ [] ∧
      (0 ≤ (g.map (fun x => jsOrQ x.weight 1)).sum →
        resCombinedGD.relevanceScore = some
          ((g.map (fun x => jsOrQ x.relevanceScore (1/2) * jsOrQ x.weight 1)).sum /
            (g.map (fun x => jsOrQ x.weight 1)).sum)) ∧
      (∃ b ∈ g, resCombinedGD.url = b.url ∧ resCombinedGD.title = b.title ∧
        resCombinedGD.snippet = b.snippet) ∧
      (∀ x ∈ g, x.snippet.length ≤ resCombinedGD.snippet.length) ∧
      resCombinedGD.metadata.sources = some (g.map (fun x => x.source)) :=
  ⟨weightedCombine_example_eval, rfl, rfl,
    weightedCombine_weighted_groups [resGoogle, resDuck] resCombinedGD
      (by rw [weightedCombine_example_eval]; exact List.mem_singleton.2 rfl)⟩

/-- Registered services for the C4 witness: two providers returning
duplicates of the same page. -/
def svcEx : List (String × List SearchResult) :=
  [("google", [resGoogle]), ("duckduckgo", [resDuck])]

/-- Options selecting deduplication explicitly. -/
def optsTrue : UnifiedSearchOptions := ⟨none, none, none, none, some true, none⟩

/-- C4 witness: the invariant applied to a concrete two-provider
configuration with `deduplicate = true`. -/
theorem search_deduplicated_urls_distinct_witness :
    List.Pairwise (fun a b => resultKey a ≠ resultKey b)
      (searchUnified svcEx "machine learning" optsTrue) :=
  search_deduplicated_urls_distinct svcEx "machine learning" optsTrue rfl

/-- C9 witness: a parsed URL with no residual trailing slash after the strip
is a fixed point of `normalizeUrl`. -/
theorem normalizeUrl_idempotent_witness :
    noResidualSlash "HTTP://Example.com/Path/" = true ∧
    normalizeUrl (normalizeUrl "HTTP://Example.com/Path/") =
      normalizeUrl "HTTP://Example.com/Path/" :=
  ⟨by decide, normalizeUrl_idempotent_of_noResidualSlash "HTTP://Example.com/Path/" (by decide)⟩

/-! ## Deep research service: tool-call protocol

Embedded from `src/lib/services/deep-research.service.ts`. Tool arguments
travel through `JSON.stringify` when a call is built and `JSON.parse` when it
is executed; this round trip is the identity, so arguments are modelled as
the structured value itself. The fresh `Date.now`-based call ids are modelled
by a deterministic per-parse counter; no claim depends on their text. -/

/-- A JSON scalar as produced by the argument builders: a string or a
number. -/
inductive JVal where
  | str (s : String)
  | num (n : Nat)
deriving DecidableEq, Repr

/-- A parsed tool-argument object: an association list of fields. -/
def Args : Type := List (String × JVal)

instance : DecidableEq Args := inferInstanceAs (DecidableEq (List (String × JVal)))

instance : Repr Args := inferInstanceAs (Repr (List (String × JVal)))

/-- Field access `args.k`, `undefined` when absent. -/
def argLookup (a : Args) (k : String) : Option JVal :=
  (a.find? (fun p => p.1 == k)).map (·.2)

/-- String interpolation of a possibly missing field, as a JS template
literal renders it (`undefined` for a missing field). -/
def jsShow (o : Option JVal) : String :=
  match o with
  | none => "undefined"
  | some (JVal.str s) => s
  | some (JVal.num n) => toString n

/-- A parsed tool call (`ToolCall` in `deep-research.types.ts`, with the
constant `type: 'function'` and the stringified arguments flattened in). -/
structure ToolCall where
  id : String
  name : String
  args : Args
deriving DecidableEq, Repr

/-- A conversation message (`ResearchMessage` in `deep-research.types.ts`). -/
structure ResearchMessage where
  role : String
  content : String
  tool_calls : Option (List ToolCall)
  tool_call_id : Option String
  name : Option String
deriving DecidableEq, Repr

/-- The lazy group `(.*?)` followed by the literal `)`: the shortest run of
characters other than `)` and the newline (which `.` never matches), ended by
the first `)`. Returns the captured run and the rest after the `)`. -/
def lazyArgs : List Char → Option (List Char × List Char)
  | [] => none
  | c :: t =>
    if c = ')' then some ([], t)
    else if c = '\n' then none
    else (lazyArgs t).map (fun p => (c :: p.1, p.2))

/-- One attempt of pattern 1, `USE_TOOL:\s*(\w+)\((.*?)\)`, anchored at the
given suffix: the literal header, optional whitespace, a nonempty word run,
then `(args)` on one line. Returns tool name, argument text and the rest. -/
def p1At (l : List Char) : Option (String × String × List Char) :=
  if "USE_TOOL:".toList.isPrefixOf l then
    let r2 := (l.drop 9).dropWhile jsIsSpace
    let w := r2.takeWhile jsIsWordChar
    if w.isEmpty then none
    else
      match r2.drop w.length with
      | '(' :: r4 => (lazyArgs r4).map (fun p => (String.mk w, String.mk p.1, p.2))
      | _ => none
  else none

/-- The shared tail `\s*\((.*?)\)` of pattern 2. -/
def tailParen (l : List Char) : Option (String × List Char) :=
  match l.dropWhile jsIsSpace with
  | '(' :: r => (lazyArgs r).map (fun p => (String.mk p.1, p.2))
  | _ => none

/-- One attempt of pattern 2, `(\w+_search|conduct_research|research_complete|think)\s*\((.*?)\)`,
anchored at the given suffix. The `\w+_search` branch consumes only word
characters, and after it the tail needs a non-word character, so it succeeds
exactly when the maximal word run here has length at least 8 and ends in
`_search`; the remaining literal branches start with distinct letters and are
likewise pinned down by the tail. -/
def p2At (l : List Char) : Option (String × String × List Char) :=
  let w := l.takeWhile jsIsWordChar
  if 8 ≤ w.length ∧ "_search".toList.isSuffixOf w then
    (tailParen (l.drop w.length)).map (fun p => (String.mk w, p.1, p.2))
  else if "conduct_research".toList.isPrefixOf l then
    (tailParen (l.drop 16)).map (fun p => ("conduct_research", p.1, p.2))
  else if "research_complete".toList.isPrefixOf l then
    (tailParen (l.drop 17)).map (fun p => ("research_complete", p.1, p.2))
  else if "think".toList.isPrefixOf l then
    (tailParen (l.drop 5)).map (fun p => ("think", p.1, p.2))
  else none

/-- The tool names listed in pattern 3. Their first letters are pairwise
distinct, so at most one alternative can match at a position. -/
def p3Names : List String :=
  ["web_search", "scholar_search", "news_search", "doc_search",
   "conduct_research", "research_complete", "think"]

/-- The tail `\s*:\s*([^\n]+)` of pattern 3. The first `\s*` and the greedy
second `\s*` may cross newlines; when only whitespace (up to a newline or the
end) follows the colon, the engine backtracks the second `\s*` so that
`[^\n]+` captures just the last non-newline whitespace character. -/
def tailColon (l : List Char) : Option (String × List Char) :=
  match l.dropWhile jsIsSpace with
  | ':' :: r =>
    let ws := r.takeWhile jsIsSpace
    let rest := r.drop ws.length
    match rest with
    | c :: _ =>
      if c = '\n' then
        match ws.reverse.dropWhile (· = '\n') with
        | [] => none
        | d :: _ =>
          some (String.mk [d],
            List.replicate (ws.reverse.takeWhile (· = '\n')).length '\n' ++ rest)
      else
        some (String.mk (rest.takeWhile (· ≠ '\n')), rest.dropWhile (· ≠ '\n'))
    | [] =>
      match ws.reverse.dropWhile (· = '\n') with
      | [] => none
      | d :: _ =>
        some (String.mk [d], List.replicate (ws.reverse.takeWhile (· = '\n')).length '\n')
  | _ => none

/-- One attempt of pattern 3,
`\b(web_search|scholar_search|news_search|doc_search|conduct_research|research_complete|think)\s*:\s*([^\n]+)`,
anchored at the given suffix; `prevIsWord` says whether the character before
this suffix is a word character (for the `\b`). -/
def p3At (prevIsWord : Bool) (l : List Char) : Option (String × String × List Char) :=
  if prevIsWord then none
  else
    match p3Names.find? (fun n => n.toList.isPrefixOf l) with
    | some n => (tailColon (l.drop n.length)).map (fun p => (n, p.1, p.2))
    | none => none

/-- Global scan of pattern 1: at each position try a match; on success
continue after the match, otherwise advance one character. -/
def scanP1 : Nat → List Char → List (String × String)
  | 0, _ => []
  | _ + 1, [] => []
  | fuel + 1, c :: t =>
    match p1At (c :: t) with
    | some (n, a, rest) => (n, a) :: scanP1 fuel rest
    | none => scanP1 fuel t

/-- Global scan of pattern 2. -/
def scanP2 : Nat → List Char → List (String × String)
  | 0, _ => []
  | _ + 1, [] => []
  | fuel + 1, c :: t =>
    match p2At (c :: t) with
    | some (n, a, rest) => (n, a) :: scanP2 fuel rest
    | none => scanP2 fuel t

/-- Global scan of pattern 3, tracking whether the previous character is a
word character; after a match the previous character is the last captured
one. -/
def scanP3 : Nat → Bool → List Char → List (String × String)
  | 0, _, _ => []
  | _ + 1, _, [] => []
  | fuel + 1, prevW, c :: t =>
    match p3At prevW (c :: t) with
    | some (n, a, rest) =>
      (n, a) :: scanP3 fuel
        (match a.toList.getLast? with
         | some d => jsIsWordChar d
         | none => false) rest
    | none => scanP3 fuel (jsIsWordChar c) t

/-- JS `argsString.slice(1, -1)`: drop the first and the last character. -/
def strSlice1m1 (s : String) : String := String.mk (s.toList.drop 1).dropLast

/-- JS `argsString.replace(/['"]/g, '')`: remove every quote character. -/
def stripQuotes (s : String) : String :=
  String.mk (s.toList.filter (fun c => !(c == '\'' || c == '"')))

/-- The parameter name chosen for a simple quoted argument. `includes` is a
substring test, so every name containing `search` — including
`conduct_research` and `research_complete`, whose `research` contains
`search` — gets `query`. -/
def paramNameFor (toolName : String) : String :=
  if containsSub "search".toList toolName.toList then "query"
  else if toolName == "conduct_research" then "research_topic"
  else if toolName == "research_complete" then "summary"
  else "thoughts"

/-- Embeds `parseToolArguments`: `JSON.parse` of the braced argument text is
an effect of the JSON library, injected as `jp`; when it fails, the fallback
is a `query` field holding the text with quotes removed. -/
def parseToolArguments (jp : String → Option Args) (argsString : String) : Args :=
  match jp argsString with
  | some o => o
  | none => [("query", JVal.str (stripQuotes argsString))]

/-- Builds one `ToolCall` from a pattern match, as the loop body of
`parseToolCalls` does: a quoted argument becomes a single named field, other
nonempty argument text goes through `parseToolArguments`, and blank argument
text gives an empty object. -/
def mkToolCall (jp : String → Option Args) (idx : Nat) (m : String × String) : ToolCall :=
  let toolName := m.1
  let argsString := m.2
  let args : Args :=
    if argsString ≠ "" ∧ String.mk (trimL argsString.toList) ≠ "" then
      if argsString.toList.head? == some '"' ∧ argsString.toList.getLast? == some '"' then
        [(paramNameFor toolName, JVal.str (strSlice1m1 argsString))]
      else parseToolArguments jp argsString
    else []
  ⟨"call_" ++ toString idx, toolName, args⟩

/-- All pattern matches of the three regexes, in pattern order. -/
def patternMatches (content : String) : List (String × String) :=
  let cl := content.toList
  scanP1 cl.length cl ++ scanP2 cl.length cl ++ scanP3 cl.length false cl

/-- The tool calls built from the pattern matches alone. -/
def patternToolCalls (jp : String → Option Args) (content : String) : List ToolCall :=
  (patternMatches content).enum.map (fun p => mkToolCall jp p.1 p.2)

/-- Embeds `extractQueryFromContent`: the first newline-separated line that
mentions `research` or `search` (lowercased) and still has words after the
filter — length above 3 and lowercase form outside the stop list — yields the
first three such words joined by spaces; otherwise `null`. -/
def extractQueryFromContent (content : String) : Option String :=
  let go : List (List Char) → Option String := fun lines =>
    lines.foldr
      (fun ln acc =>
        if containsSub "research".toList (lowerL ln) ||
            containsSub "search".toList (lowerL ln) then
          let ws := (splitOnChar ' ' ln).filter (fun w =>
            3 < w.length &&
            !(["research", "search", "find", "look", "into", "about", "this",
               "that", "will", "should"].map String.toList).contains (lowerL w))
          if ws.isEmpty then acc
          else some (String.mk (List.intercalate [' '] (ws.take 3)))
        else acc)
      none
  go (splitOnChar '\n' content.toList)

/-- Embeds `parseToolCalls`: the calls found by the three patterns; when
there are none but the content mentions research or search, one forced
`web_search` call is pushed when a query can be extracted. -/
def parseToolCalls (jp : String → Option Args) (content : String) : List ToolCall :=
  let toolCalls := patternToolCalls jp content
  if toolCalls.isEmpty ∧
      (containsSub "research".toList (lowerL content.toList) ||
       containsSub "search".toList (lowerL content.toList)) then
    match extractQueryFromContent content with
    | some q =>
      [⟨"call_forced_0", "web_search", [("query", JVal.str q), ("max_results", JVal.num 5)]⟩]
    | none => []
  else toolCalls

/-- JS `Array.prototype.join('\n\n')`. -/
def joinNN : List String → String
  | [] => ""
  | [s] => s
  | s :: r :: t => s ++ "\n\n" ++ joinNN (r :: t)

/-- JS `x.toFixed(0)` on an exact rational: the nearest integer, ties to the
larger. -/
def jsToFixed0 (q : ℚ) : Int := ⌊q + 1/2⌋

/-- Lowercasing of a string through its character list (JS
`toLowerCase`, ASCII range). -/
def strLower (s : String) : String := String.mk (lowerL s.toList)

/-- Embeds `formatSearchResults`: an empty result list yields a diagnostic
line; otherwise the first eight results are rendered with title, URL, source
(defaulting to `Unknown`), snippet (defaulting when empty) and the relevance
percentage — a missing or zero score is falsy and renders as `Not scored` —
under a heading and above a note line. -/
def formatSearchResults (results : List SearchResult) (type : String) : String :=
  if results.isEmpty then
    "No " ++ strLower type ++
      " search results found. This may indicate an issue with the search service or query."
  else
    let formatted := joinNN ((results.take 8).enum.map (fun p =>
      let r := p.2
      let snippet := if r.snippet == "" then "No snippet available" else r.snippet
      let relevanceInfo :=
        match r.relevanceScore with
        | some s =>
          if s = 0 then "Relevance: Not scored"
          else "Relevance: " ++ toString (jsToFixed0 (s * 100)) ++ "%"
        | none => "Relevance: Not scored"
      toString (p.1 + 1) ++ ". **" ++ r.title ++ "**\n   URL: " ++ r.url ++
        "\n   Source: " ++ (if r.source == "" then "Unknown" else r.source) ++
        "\n   " ++ snippet ++ "\n   " ++ relevanceInfo))
    "## " ++ type ++ " Search Results (" ++ toString results.length ++ " found)\n\n" ++
      formatted ++ "\n\n---\nNote: These are the top " ++
      toString (min results.length 8) ++ " results from " ++
      toString results.length ++ " total results found."

/-- External collaborators of `executeToolCalls`: the per-provider search
responses feeding the embedded unified search, the scholar/news/documentation
searches, and the research sub-agent (`executeResearchAgent`, a further
LM-driven loop whose network effects are injected); each fallible one returns
`Except` with the thrown message. -/
structure ExecEnv where
  svc : List (String × List SearchResult)
  searchScholar : String → Nat → Except String (List SearchResult)
  searchNews : String → Nat → Except String (List SearchResult)
  searchDocs : String → Option String → Nat → Except String (List SearchResult)
  runAgent : String → Except String String

/-- A `max_results` argument defaulted by `args.max_results || 5`. -/
def argMaxResults (args : Args) : Nat :=
  match argLookup args "max_results" with
  | some (JVal.num n) => if n = 0 then 5 else n
  | _ => 5

/-- A string argument field rendered as JS would pass it along. -/
def argShow (args : Args) (k : String) : String := jsShow (argLookup args k)

/-- An optional string argument (the `library` of `doc_search`). -/
def argStrOpt (args : Args) (k : String) : Option String :=
  match argLookup args k with
  | some (JVal.str s) => some s
  | _ => none

/-- The switch body of `executeToolCalls` for one call: each known tool runs
and formats its result — `web_search` through the embedded unified search
with the fixed source list and weighted strategy — and an unknown name falls
through to an `Unknown tool` message. -/
def dispatchTool (env : ExecEnv) (tc : ToolCall) : Except String String :=
  match tc.name with
  | "web_search" =>
    Except.ok (formatSearchResults
      (searchUnified env.svc (argShow tc.args "query")
        ⟨some (argMaxResults tc.args),
         some ["google", "duckduckgo", "tavily", "langsearch"],
         some "weighted", none, none, none⟩) "Web")
  | "scholar_search" =>
    (env.searchScholar (argShow tc.args "query") (argMaxResults tc.args)).map
      (fun rs => formatSearchResults rs "Scholar")
  | "news_search" =>
    (env.searchNews (argShow tc.args "query") (argMaxResults tc.args)).map
      (fun rs => formatSearchResults rs "News")
  | "doc_search" =>
    (env.searchDocs (argShow tc.args "query") (argStrOpt tc.args "library")
        (argMaxResults tc.args)).map
      (fun rs => formatSearchResults rs "Documentation")
  | "think" => Except.ok ("Thinking: " ++ argShow tc.args "thoughts")
  | "conduct_research" => env.runAgent (argShow tc.args "research_topic")
  | "research_complete" => Except.ok ("Research completed: " ++ argShow tc.args "summary")
  | other => Except.ok ("Unknown tool: " ++ other)

/-- One loop iteration of `executeToolCalls`: the result message for one
call, the catch turning a thrown message into `Error executing …`; both arms
copy the call's id and name onto a tool-role message. -/
def execOne (env : ExecEnv) (tc : ToolCall) : ResearchMessage :=
  match dispatchTool env tc with
  | Except.ok r => ⟨"tool", r, none, some tc.id, some tc.name⟩
  | Except.error e =>
    ⟨"tool", "Error executing " ++ tc.name ++ ": " ++ e, none, some tc.id, some tc.name⟩

/-- Embeds `executeToolCalls`: the loop pushes one result message per tool
call onto an initially empty list. -/
def executeToolCalls (env : ExecEnv) (toolCalls : List ToolCall) : List ResearchMessage :=
  toolCalls.foldl (fun results tc => results ++ [execOne env tc]) []

/-- The tool names the switch of `executeToolCalls` handles. -/
def knownToolNames : List String :=
  ["web_search", "scholar_search", "news_search", "doc_search", "think",
   "conduct_research", "research_complete"]

/-- Result of the clarification phase (`ClarificationResult`). -/
structure ClarificationResult where
  need_clarification : Bool
  question : Option String
  verification : Option String
deriving DecidableEq, Repr

/-- Result of the brief phase (`ResearchBrief`). -/
structure ResearchBrief where
  research_brief : String
  key_questions : List String
  research_scope : String
deriving DecidableEq, Repr

/-- External collaborators of the service: the LM
(`AIProviderService.generateResponse` with the configured provider and
model, as a function of the full prompt), `JSON.parse` on LM output for the
clarification and brief phases and for `parseToolArguments`, the rendered
current date, and the tool-execution collaborators. -/
structure DeepEnv where
  lm : String → Except String String
  jp : String → Option Args
  jsonClar : String → Option ClarificationResult
  jsonBrief : String → Option ResearchBrief
  dateStr : String
  exec : ExecEnv

/-- The tool list appended to every `callAIWithTools` prompt. -/
def toolsDescription : String :=
  "Available tools:\n- web_search(query: string, max_results?: number): Search the web for information\n- scholar_search(query: string, max_results?: number): Search academic papers and research\n- news_search(query: string, max_results?: number): Search latest news and current events\n- doc_search(query: string, library?: string, max_results?: number): Search technical documentation\n- think(thoughts: string): Reflect on current progress and plan next steps  \n- conduct_research(research_topic: string): Delegate research on a specific topic to a sub-agent\n- research_complete(summary: string): Indicate that research is complete\n\nTo use a tool, respond with: USE_TOOL: tool_name(arguments)\nFor example: USE_TOOL: web_search(\"machine learning trends 2024\")\nOr: USE_TOOL: scholar_search(\"deep learning papers 2024\")\n\nIf you don't need to use any tools, provide your response directly."

/-- The `role: content` flattening of the conversation used by
`callAIWithTools`. -/
def flattenMessages (msgs : List ResearchMessage) : String :=
  joinNN (msgs.map (fun m => m.role ++ ": " ++ m.content))

/-- Embeds `callAIWithTools`: the LM answer becomes an assistant message
carrying its parsed tool calls; a thrown LM error is caught and becomes an
assistant message with no tool calls. -/
def callAIWithTools (env : DeepEnv) (msgs : List ResearchMessage) : ResearchMessage :=
  match env.lm (flattenMessages msgs ++ "\n\n" ++ toolsDescription) with
  | Except.ok content => ⟨"assistant", content, some (parseToolCalls env.jp content), none, none⟩
  | Except.error e => ⟨"assistant", "Error in AI response: " ++ e, none, none, none⟩

/-- Embeds `generateForcedResearchTopics`: words of the lowercased query
longer than 3 outside a small stop list feed up to three canned topics. -/
def generateForcedResearchTopics (query : String) : List String :=
  let lq := lowerL query.toList
  let words := (jsSplitWs lq).filter (fun w =>
    3 < w.length &&
    !(["the", "and", "with", "for", "are", "this", "that"].map String.toList).contains w)
  let topics :=
    (if words.isEmpty then []
     else ["Current developments in " ++ String.mk (List.intercalate [' '] (words.take 3))]) ++
    (if containsSub "ai".toList lq || containsSub "artificial intelligence".toList lq then
      ["AI implementation techniques and best practices"] else []) ++
    (if containsSub "deep learning".toList lq || containsSub "machine learning".toList lq then
      ["Latest deep learning research and applications"] else []) ++
    ["Practical applications and future trends in " ++
      String.mk (List.intercalate [' '] (words.take 2))]
  topics.take 3

/-- The `for (const result of toolResults)` body of the supervisor loop:
push each result message; a `conduct_research` result with nonempty (truthy)
content is recorded in both note lists; a `research_complete` result stops
immediately (final component `true`) with the notes accumulated so far. -/
def processToolResults :
    List ResearchMessage → List ResearchMessage → List String → List String →
    List ResearchMessage × List String × List String × Bool
  | [], msgs, notes, raw => (msgs, notes, raw, false)
  | r :: rest, msgs, notes, raw =>
    let msgs' := msgs ++ [r]
    let notes' := if r.name == some "conduct_research" && !(r.content == "") then
        notes ++ [r.content] else notes
    let raw' := if r.name == some "conduct_research" && !(r.content == "") then
        raw ++ ["Research on: " ++ r.content] else raw
    if r.name == some "research_complete" then (msgs', notes', raw', true)
    else processToolResults rest msgs' notes' raw'

/-- The forced-research fallback: run the research agent on each topic,
pushing its summary and a `Forced research on:` marker; a thrown agent error
propagates. -/
def forcedResearch (env : DeepEnv) :
    List String → List String → List String → Except String (List String × List String)
  | [], notes, raw => Except.ok (notes, raw)
  | t :: ts, notes, raw =>
    match env.exec.runAgent t with
    | Except.ok research =>
      forcedResearch env ts (notes ++ [research]) (raw ++ ["Forced research on: " ++ t])
    | Except.error e => Except.error e

/-- The `while (iterations < max_iterations)` supervisor loop, by recursion
on the remaining iteration budget; `iterZero` records `iterations === 0`.
Returns the number of LM calls made and either the thrown error or the final
note lists. On a response with tool calls the results are processed and a
`research_complete` returns at once; otherwise forced research runs on the
first iteration when no notes exist yet, and the loop breaks either way. -/
def supervisorLoop (env : DeepEnv) (query : String) :
    Nat → Bool → List ResearchMessage → List String → List String →
    Nat × Except String (List String × List String)
  | 0, _, _, notes, raw => (0, Except.ok (notes, raw))
  | remaining + 1, iterZero, msgs, notes, raw =>
    let resp := callAIWithTools env msgs
    let msgs' := msgs ++ [resp]
    match resp.tool_calls with
    | some (tc :: tcs) =>
      let results := executeToolCalls env.exec (tc :: tcs)
      match processToolResults results msgs' notes raw with
      | (_, notes', raw', true) => (1, Except.ok (notes', raw'))
      | (msgs'', notes', raw', false) =>
        let rec2 := supervisorLoop env query remaining false msgs'' notes' raw'
        (rec2.1 + 1, rec2.2)
    | _ =>
      if iterZero ∧ notes.isEmpty then
        match forcedResearch env (generateForcedResearchTopics query) notes raw with
        | Except.ok (notes', raw') => (1, Except.ok (notes', raw'))
        | Except.error e => (1, Except.error e)
      else (1, Except.ok (notes, raw))

/-- The supervisor system prompt (the brief placeholder renders `undefined`
through `JSON.stringify` of a missing field when a brief is set, `Not
available` otherwise). -/
def supervisorPrompt (brief : Option String) (maxAgents maxIter : Nat) : String :=
  "You are the Deep Research Supervisor coordinating multiple research agents. Your job is to break down the research brief into specific research tasks and delegate them to specialized agents.\n\nResearch Brief:\n" ++
  (match brief with | some b => b | none => "undefined") ++
  "\n\nKey Questions to Answer:\n" ++
  (match brief with
   | some b => if b == "" then "Not available" else "undefined"
   | none => "Not available") ++
  "\n\nYour role:\n1. Analyze the research brief and identify 2-4 specific research subtopics\n2. Use the conduct_research tool to delegate each subtopic to a research agent\n3. Monitor progress and ensure comprehensive coverage\n4. When all research is complete, use research_complete tool\n\nAvailable tools:\n- conduct_research(research_topic: string): Delegate research on a specific topic\n- research_complete(summary: string): Mark research as complete\n- think(thoughts: string): Reflect on progress and next steps\n\nMaximum concurrent research units: " ++
  toString maxAgents ++ "\nMaximum iterations: " ++ toString maxIter ++
  "\n\nStart by identifying the key research areas and delegating them to agents. Be specific and actionable in your research topics."

/-- Embeds `conductMultiAgentResearch`: the supervisor loop started on the
system prompt with empty note lists and the full iteration budget. -/
def conductMultiAgentResearch (env : DeepEnv) (maxAgents maxIter : Nat)
    (query : String) (brief : Option String) :
    Nat × Except String (List String × List String) :=
  supervisorLoop env query maxIter true
    [⟨"system", supervisorPrompt brief maxAgents maxIter, none, none, none⟩] [] []

/-- Embeds `extractQuestionsFromText`: trimmed lines holding a question mark
and a question word, defaults when none, at most five. -/
def extractQuestionsFromText (text : String) : List String :=
  let questions := ((splitOnChar '\n' text.toList).filter (fun ln =>
    containsSub "?".toList ln &&
      (containsSub "What".toList ln || containsSub "How".toList ln ||
       containsSub "Why".toList ln || containsSub "When".toList ln ||
       containsSub "Where".toList ln))).map (fun ln => String.mk (trimL ln))
  if questions.isEmpty then
    ["What are the key aspects of this topic?",
     "What are the current trends and developments?",
     "What are the practical implications?"]
  else questions.take 5

/-- The clarification-phase prompt. -/
def clarifyPrompt (query dateStr : String) : String :=
  "You are an expert research coordinator. Analyze this user request and determine if it contains sufficient information to proceed with comprehensive research.\n\nUser request: \"" ++
  query ++ "\"\n\nCurrent date: " ++ dateStr ++
  "\n\nRespond with a JSON object containing:\n- \"need_clarification\": boolean (true if the request is too vague or needs more context)\n- \"question\": string (if clarification needed, what specific question to ask)\n- \"verification\": string (if no clarification needed, confirm what you understand)\n\nThe request should be specific enough to conduct meaningful research. Look for:\n- Clear research topic or question\n- Sufficient context about what type of information is needed\n- Reasonable scope (not too broad or too narrow)\n\nExamples that need clarification:\n- \"Tell me about AI\" (too broad)\n- \"Research this\" (no topic specified)\n- \"What's new?\" (no context)\n\nExamples that are sufficient:\n- \"Analyze current techniques for few-shot text-to-SQL with practical recommendations\"\n- \"Research the impact of remote work on software development productivity\"\n- \"Investigate recent advances in quantum computing applications for cryptography\""

/-- Embeds `clarifyUserIntent`: parse the LM answer as a
`ClarificationResult`; an LM error or a parse failure falls back to
proceeding without clarification. -/
def clarifyUserIntent (env : DeepEnv) (query : String) : ClarificationResult :=
  match env.lm (clarifyPrompt query env.dateStr) with
  | Except.ok content =>
    match env.jsonClar content with
    | some r => r
    | none =>
      ⟨false, none, some "Proceeding with research based on the provided query."⟩
  | Except.error _ =>
    ⟨false, none, some "Proceeding with research based on the provided query."⟩

/-- The brief-phase prompt. -/
def briefPrompt (query dateStr : String) : String :=
  "You are an expert research planner. Transform this user request into a comprehensive research brief.\n\nUser request: \"" ++
  query ++ "\"\nCurrent date: " ++ dateStr ++
  "\n\nCreate a detailed research brief that includes:\n\n1. **Research Objective**: Clear statement of what needs to be researched\n2. **Key Questions**: 3-5 specific questions that need to be answered\n3. **Research Scope**: What areas/topics should be covered\n4. **Expected Deliverables**: What the final report should contain\n\nRespond with a JSON object containing:\n- \"research_brief\": string (comprehensive brief covering all above points)\n- \"key_questions\": string[] (array of specific research questions)\n- \"research_scope\": string (scope definition)\n\nMake the brief detailed enough to guide multiple research agents working in parallel."

/-- Embeds `generateResearchBrief`: a parse failure keeps the raw answer as
the brief with questions extracted from the text; an LM error falls back to a
templated brief. -/
def generateResearchBrief (env : DeepEnv) (query : String) : ResearchBrief :=
  match env.lm (briefPrompt query env.dateStr) with
  | Except.ok content =>
    match env.jsonBrief content with
    | some r => r
    | none =>
      ⟨content, extractQuestionsFromText content,
        "General research covering current state, trends, and practical applications"⟩
  | Except.error _ =>
    ⟨"Research Brief: " ++ query ++
      "\n\nObjective: Conduct comprehensive research on the requested topic.\nScope: Gather current information, analyze trends, and provide actionable insights.\nDeliverables: Structured report with findings, analysis, and recommendations.",
     ["What are the current developments in " ++ query ++ "?",
      "What are the key challenges and opportunities?",
      "What are the practical implications and recommendations?"],
     "General research covering current state, trends, and practical applications"⟩

/-- The report-phase prompt. -/
def reportPrompt (brief : Option String) (notes : List String) (dateStr : String) : String :=
  "You are an expert research writer. Create a comprehensive final report based on the research conducted.\n\nResearch Brief: " ++
  (match brief with | some b => b | none => "undefined") ++
  "\n\nResearch Findings:\n" ++ joinNN notes ++ "\n\nCurrent date: " ++ dateStr ++
  "\n\nCreate a well-structured final report that includes:\n\n1. **Executive Summary**: Brief overview of key findings\n2. **Detailed Analysis**: Comprehensive analysis of the research topic\n3. **Key Insights**: Most important discoveries and insights\n4. **Practical Recommendations**: Actionable recommendations based on findings\n5. **Conclusion**: Summary and future outlook\n\nFormat the report professionally with clear headings and well-organized content."

/-- The fixed text above the joined notes in the catch-branch report. -/
def reportHeader : String :=
  "# Research Report\n\n## Executive Summary\nResearch was conducted on the requested topic. Due to processing limitations, a detailed report could not be generated.\n\n## Findings Summary\n"

/-- The fixed text below the joined notes in the catch-branch report. -/
def reportFooter : String :=
  "\n\n## Conclusion\nResearch completed with available findings documented above."

/-- The deterministic catch-branch report of `generateFinalReport`, joining
the accumulated notes under a Findings Summary header. -/
def fallbackReport (notes : List String) : String :=
  reportHeader ++ joinNN notes ++ reportFooter

/-- Embeds `generateFinalReport`: the LM answer, or on a thrown LM error the
deterministic fallback report. -/
def generateFinalReport (env : DeepEnv) (brief : Option String) (notes : List String) : String :=
  match env.lm (reportPrompt brief notes env.dateStr) with
  | Except.ok content => content
  | Except.error _ => fallbackReport notes

/-- The configuration fields of `DeepResearchConfig` used by the service. -/
structure DeepResearchConfig where
  provider : String
  model : String
  max_iterations : Nat
  max_concurrent_agents : Nat
deriving DecidableEq, Repr

/-- The service outcome (`DeepResearchResult`). -/
structure DeepResearchResult where
  success : Bool
  research_brief : Option String
  final_report : Option String
  notes : List String
  raw_notes : List String
  error : Option String
  details : Option String
deriving DecidableEq, Repr

/-- Embeds `conductDeepResearch`: clarify, then brief, then the supervisor
loop, then the final report; a clarification request aborts with an error
result, and an error thrown inside the research phase is caught and reported
as a failure. -/
def conductDeepResearch (env : DeepEnv) (cfg : DeepResearchConfig)
    (query : String) : DeepResearchResult :=
  let clar := clarifyUserIntent env query
  if clar.need_clarification then
    ⟨false, none, none, [], [], some "Clarification needed", clar.question⟩
  else
    let brief := generateResearchBrief env query
    match (conductMultiAgentResearch env cfg.max_concurrent_agents cfg.max_iterations
        query (some brief.research_brief)).2 with
    | Except.error e => ⟨false, none, none, [], [], some e, none⟩
    | Except.ok (notes, raw) =>
      ⟨true, some brief.research_brief,
       some (generateFinalReport env (some brief.research_brief) notes),
       notes, raw, none, none⟩

/-! ## The deep-research API route

Embedded from the `POST` handler of `src/app/api/deep-research/route.ts`. The
request body's `query`, `provider` and `model` are modelled as present or
absent strings (`none` also standing for a non-string value); the research
computation raced against the timeout is an injected function of the trimmed
query. -/

/-- The JSON response of the route: HTTP status, and either an error body or
the research result. -/
structure RouteResponse where
  status : Nat
  success : Bool
  error : Option String
  result : Option DeepResearchResult
deriving DecidableEq, Repr

/-- Embeds the `POST` handler's validation and dispatch: a missing,
non-string, empty or short-after-trim query is rejected with status 400
before any service is constructed; then provider and model (with their
destructuring defaults) must be nonempty strings; then the research runs on
the trimmed query and its success flag picks status 200 or 500. -/
def postHandle (run : String → DeepResearchResult)
    (query provider model : Option String) : RouteResponse :=
  match query with
  | none => ⟨400, false, some "Query must be a non-empty string (min 3 chars).", none⟩
  | some q =>
    if (trimL q.toList).length < 3 then
      ⟨400, false, some "Query must be a non-empty string (min 3 chars).", none⟩
    else if provider.getD "groq" == "" then
      ⟨400, false, some "Provider must be a non-empty string.", none⟩
    else if model.getD "llama-3.3-70b-versatile" == "" then
      ⟨400, false, some "Model must be a non-empty string.", none⟩
    else
      let r := run (String.mk (trimL q.toList))
      if r.success then ⟨200, true, none, some r⟩ else ⟨500, r.success, r.error, some r⟩

/-- A JSON-argument parser that always fails (the braced fragments in these
inputs are not valid JSON object bodies anyway). -/
def jpNone : String → Option Args := fun _ => none

/-- A tool-execution environment with no registered search providers and
trivial collaborators. -/
def envC10 : ExecEnv :=
  ⟨[], fun _ _ => Except.ok [], fun _ _ => Except.ok [],
   fun _ _ _ => Except.ok [], fun _ => Except.ok ""⟩

/-- C10: on the exact text `USE_TOOL: web_search("machine learning")` the
`USE_TOOL` pattern and the bare `name(args)` pattern each match the same
span, so `parseToolCalls` returns two `web_search` calls with query
`machine learning`, and `executeToolCalls` dispatches the single textual
invocation twice, producing two tool-role messages with the two ids. -/
theorem parseToolCalls_double_match :
    parseToolCalls jpNone "USE_TOOL: web_search(\"machine learning\")" =
      [⟨"call_0", "web_search", [("query", JVal.str "machine learning")]⟩,
       ⟨"call_1", "web_search", [("query", JVal.str "machine learning")]⟩] ∧
    (executeToolCalls envC10
        (parseToolCalls jpNone "USE_TOOL: web_search(\"machine learning\")")).map
        (fun m => (m.role, m.tool_call_id, m.name)) =
      [("tool", some "call_0", some "web_search"),
       ("tool", some "call_1", some "web_search")] := by
  exact ⟨by decide, by decide⟩

/-- C2 counterexample: the content `search` yields no pattern matches and
mentions `search`, yet `parseToolCalls` returns no call at all — the only
candidate query word is itself in the stop list, `extractQueryFromContent`
returns `null`, and the forced branch pushes nothing. -/
theorem parseToolCalls_search_no_forced_call :
    patternToolCalls jpNone "search" = [] ∧
    containsSub "search".toList (lowerL "search".toList) = true ∧
    extractQueryFromContent "search" = none ∧
    parseToolCalls jpNone "search" = [] := by
  exact ⟨by decide, by decide, by decide, by decide⟩

/-- C2 (amended): when the three patterns yield no call and the lowercased
content mentions `research` or `search`, `parseToolCalls` returns exactly one
forced `web_search` call with the extracted query and `max_results` 5 when
`extractQueryFromContent` finds a query, and no call when it does not. -/
theorem parseToolCalls_forced_fallback (jp : String → Option Args) (content : String)
    (h1 : patternToolCalls jp content = [])
    (h2 : (containsSub "research".toList (lowerL content.toList) ||
           containsSub "search".toList (lowerL content.toList)) = true) :
    parseToolCalls jp content =
      match extractQueryFromContent content with
      | some q =>
        [⟨"call_forced_0", "web_search",
          [("query", JVal.str q), ("max_results", JVal.num 5)]⟩]
      | none => [] := by
  have hc : (patternToolCalls jp content).isEmpty ∧
      (containsSub "research".toList (lowerL content.toList) ||
       containsSub "search".toList (lowerL content.toList)) = true := by
    refine ⟨?_, h2⟩
    rw [h1]
    rfl
  simp only [parseToolCalls]
  rw [if_pos hc]

/-- C2 witness: the content `I will research quantum computing next` has no
pattern matches, mentions `research`, and the forced branch produces the
single `web_search` call on the three surviving words. -/
theorem parseToolCalls_forced_fallback_witness :
    parseToolCalls jpNone "I will research quantum computing next" =
      [⟨"call_forced_0", "web_search",
        [("query", JVal.str "quantum computing next"), ("max_results", JVal.num 5)]⟩] := by
  have h := parseToolCalls_forced_fallback jpNone "I will research quantum computing next"
    (by decide) (by decide)
  exact h.trans (by decide)

/-- The push loop of `executeToolCalls` is the map of `execOne` after the
accumulator. -/
theorem executeToolCalls_foldl_eq_map (env : ExecEnv) :
    ∀ (l : List ToolCall) (acc : List ResearchMessage),
      l.foldl (fun results tc => results ++ [execOne env tc]) acc =
        acc ++ l.map (execOne env)
  | [], acc => by simp [List.foldl]
  | tc :: t, acc => by
    simp only [List.foldl, List.map]
    rw [executeToolCalls_foldl_eq_map env t (acc ++ [execOne env tc])]
    simp

/-- An unknown tool name falls through the switch to the default arm. -/
theorem dispatchTool_unknown (env : ExecEnv) (tc : ToolCall)
    (h : tc.name ∉ knownToolNames) :
    dispatchTool env tc = Except.ok ("Unknown tool: " ++ tc.name) := by
  unfold dispatchTool
  split <;> simp_all [knownToolNames]

/-- C6: `executeToolCalls` returns exactly one tool-role message per call,
in order — the i-th message copies the i-th call's id into `tool_call_id`
and its name into `name`, and carries either the dispatched result or the
caught exception message; an unknown tool name yields an `Unknown tool: …`
message rather than a failure, and no call is dropped. -/
theorem executeToolCalls_message_per_call (env : ExecEnv) (tcs : List ToolCall) :
    (executeToolCalls env tcs).length = tcs.length ∧
    ∀ i (hi : i < tcs.length) (hm : i < (executeToolCalls env tcs).length),
      ((executeToolCalls env tcs).get ⟨i, hm⟩).role = "tool" ∧
      ((executeToolCalls env tcs).get ⟨i, hm⟩).tool_call_id = some (tcs.get ⟨i, hi⟩).id ∧
      ((executeToolCalls env tcs).get ⟨i, hm⟩).name = some (tcs.get ⟨i, hi⟩).name ∧
      ((∃ r, dispatchTool env (tcs.get ⟨i, hi⟩) = Except.ok r ∧
          ((executeToolCalls env tcs).get ⟨i, hm⟩).content = r) ∨
       (∃ e, dispatchTool env (tcs.get ⟨i, hi⟩) = Except.error e ∧
          ((executeToolCalls env tcs).get ⟨i, hm⟩).content =
            "Error executing " ++ (tcs.get ⟨i, hi⟩).name ++ ": " ++ e)) ∧
      ((tcs.get ⟨i, hi⟩).name ∉ knownToolNames →
        ((executeToolCalls env tcs).get ⟨i, hm⟩).content =
          "Unknown tool: " ++ (tcs.get ⟨i, hi⟩).name) := by
  have hmap : executeToolCalls env tcs = tcs.map (execOne env) := by
    unfold executeToolCalls
    simpa using executeToolCalls_foldl_eq_map env tcs []
  constructor
  · rw [hmap, List.length_map]
  · intro i hi hm
    have hget : (executeToolCalls env tcs).get ⟨i, hm⟩ = execOne env (tcs.get ⟨i, hi⟩) := by
      rw [List.get_of_eq hmap ⟨i, hm⟩]
      simp [List.get_map]
    rw [hget]
    set tc := tcs.get ⟨i, hi⟩ with htc
    refine ⟨?_, ?_, ?_, ?_, ?_⟩
    · unfold execOne
      split <;> rfl
    · unfold execOne
      split <;> rfl
    · unfold execOne
      split <;> rfl
    · cases hd : dispatchTool env tc with
      | ok r =>
        refine Or.inl ⟨r, rfl, ?_⟩
        unfold execOne
        rw [hd]
      | error e =>
        refine Or.inr ⟨e, rfl, ?_⟩
        unfold execOne
        rw [hd]
    · intro hunk
      have hd := dispatchTool_unknown env tc hunk
      unfold execOne
      rw [hd]

/-- Two concrete calls: a known `think` and an unknown `frobnicate`. -/
def tcsEx : List ToolCall :=
  [⟨"call_0", "think", [("thoughts", JVal.str "plan next")]⟩,
   ⟨"call_1", "frobnicate", []⟩]

/-- C6 witness: on the two concrete calls the correspondence holds — two
messages, and the unknown tool's message carries the `Unknown tool` text. -/
theorem executeToolCalls_message_per_call_witness :
    (executeToolCalls envC10 tcsEx).length = 2 ∧
    ((executeToolCalls envC10 tcsEx).get ⟨1, by decide⟩).content = "Unknown tool: frobnicate" := by
  have h := executeToolCalls_message_per_call envC10 tcsEx
  refine ⟨h.1.trans (by decide), ?_⟩
  have h2 := h.2 1 (by decide) (by decide)
  exact (h2.2.2.2.2 (by decide)).trans (by decide)

/-- The supervisor loop makes at most as many LM calls as it has iteration
budget, from any starting state. -/
theorem supervisorLoop_calls_le (env : DeepEnv) (q : String) :
    ∀ (n : Nat) (z : Bool) (msgs : List ResearchMessage) (notes raw : List String),
      (supervisorLoop env q n z msgs notes raw).1 ≤ n := by
  intro n
  induction n with
  | zero => intro z msgs notes raw; simp [supervisorLoop]
  | succ r ih =>
    intro z msgs notes raw
    unfold supervisorLoop
    dsimp only
    repeat' split
    all_goals first
      | exact Nat.succ_le_succ (Nat.zero_le r)
      | exact Nat.succ_le_succ (ih false _ _ _)

/-- C5: with a budget of at least one, the supervisor loop makes at most
`max_iterations` LM calls (so at most that many iterations, also through
`conductMultiAgentResearch`), and as soon as the processing of a response's
tool results hits one named `research_complete` it returns at once, with
exactly one LM call made and exactly the note lists accumulated so far —
empty ones included. -/
theorem supervisorLoop_bounded_and_complete_stops (env : DeepEnv) (q : String)
    (maxIter : Nat) (z : Bool) (msgs : List ResearchMessage) (notes raw : List String)
    (hm : 1 ≤ maxIter) :
    (supervisorLoop env q maxIter z msgs notes raw).1 ≤ maxIter ∧
    (∀ maxAgents brief, (conductMultiAgentResearch env maxAgents maxIter q brief).1 ≤ maxIter) ∧
    (∀ tc tcs m4 n4 r4,
      (callAIWithTools env msgs).tool_calls = some (tc :: tcs) →
      processToolResults (executeToolCalls env.exec (tc :: tcs))
          (msgs ++ [callAIWithTools env msgs]) notes raw = (m4, n4, r4, true) →
      supervisorLoop env q maxIter z msgs notes raw = (1, Except.ok (n4, r4))) := by
  refine ⟨supervisorLoop_calls_le env q maxIter z msgs notes raw, ?_, ?_⟩
  · intro maxAgents brief
    exact supervisorLoop_calls_le env q maxIter true _ [] []
  · intro tc tcs m4 n4 r4 hc hp
    obtain ⟨r, rfl⟩ : ∃ r, maxIter = r + 1 := by
      cases maxIter with
      | zero => exact absurd hm (by decide)
      | succ r => exact ⟨r, rfl⟩
    unfold supervisorLoop
    dsimp only
    rw [hc]
    dsimp only
    rw [hp]

/-- A supervisor environment whose LM always answers with a completion tool
call. -/
def env5 : DeepEnv :=
  ⟨fun _ => Except.ok "USE_TOOL: research_complete(\"done\")",
   fun _ => none, fun _ => none, fun _ => none, "Sat, Oct 10, 2026", envC10⟩

/-- The supervisor system message of the witness run. -/
def msg5 : ResearchMessage :=
  ⟨"system", supervisorPrompt (some "brief text") 3 6, none, none, none⟩

/-- The two calls parsed from the completion answer (both patterns match;
the quoted argument binds to `query` since `research_complete` contains
`search`). -/
def rcCall (i : Nat) : ToolCall :=
  ⟨"call_" ++ toString i, "research_complete", [("query", JVal.str "done")]⟩

/-- The processed tool results of the witness run's first iteration. -/
def proc5 : List ResearchMessage × List String × List String × Bool :=
  processToolResults (executeToolCalls env5.exec (rcCall 0 :: [rcCall 1]))
    ([msg5] ++ [callAIWithTools env5 [msg5]]) [] []

instance {ε α : Type} [DecidableEq ε] [DecidableEq α] : DecidableEq (Except ε α) := fun a b =>
  match a, b with
  | Except.ok a, Except.ok b =>
    if h : a = b then Decidable.isTrue (h ▸ rfl)
    else Decidable.isFalse (fun he => h (Except.ok.inj he))
  | Except.error e, Except.error f =>
    if h : e = f then Decidable.isTrue (h ▸ rfl)
    else Decidable.isFalse (fun he => h (Except.error.inj he))
  | Except.ok _, Except.error _ => Decidable.isFalse (fun he => Except.noConfusion he)
  | Except.error _, Except.ok _ => Decidable.isFalse (fun he => Except.noConfusion he)

set_option maxRecDepth 8000 in
/-- C5 witness: with budget 6 the loop whose first answer is
`research_complete` stops after one LM call with both note lists empty. -/
theorem supervisorLoop_complete_stops_witness :
    supervisorLoop env5 "ai trends" 6 true [msg5] [] [] = (1, Except.ok ([], [])) := by
  have h := supervisorLoop_bounded_and_complete_stops env5 "ai trends" 6 true [msg5] [] []
    (by decide)
  have h3 := h.2.2 (rcCall 0) [rcCall 1] proc5.1 proc5.2.1 proc5.2.2.1
    (by decide) (by decide)
  exact h3.trans (by decide)

/-- The empty pattern is a substring of everything. -/
theorem containsSub_nil (m : List Char) : containsSub [] m = true := by
  cases m <;> simp [containsSub, List.isPrefixOf]

/-- A prefix is a substring. -/
theorem containsSub_of_isPrefixOf {t l : List Char} (h : t.isPrefixOf l = true) :
    containsSub t l = true := by
  cases l with
  | nil =>
    cases t with
    | nil => rfl
    | cons c r => simp [List.isPrefixOf] at h
  | cons c r => simp [containsSub, h]

/-- A prefix of a list is a prefix of any right extension. -/
theorem isPrefixOf_append_right {t l : List Char} (m : List Char)
    (h : t.isPrefixOf l = true) : t.isPrefixOf (l ++ m) = true := by
  rw [List.isPrefixOf_iff_prefix] at h ⊢
  exact h.trans (List.prefix_append l m)

/-- A substring survives a right extension. -/
theorem containsSub_append_right {t l : List Char} (m : List Char)
    (h : containsSub t l = true) : containsSub t (l ++ m) = true := by
  induction l with
  | nil =>
    have : t = [] := by
      cases t with
      | nil => rfl
      | cons c r => simp [containsSub] at h
    rw [this]
    exact containsSub_nil m
  | cons c r ih =>
    rw [List.cons_append]
    simp only [containsSub, Bool.or_eq_true] at h ⊢
    rcases h with h | h
    · exact Or.inl (isPrefixOf_append_right m h)
    · exact Or.inr (ih h)

/-- A substring survives a left extension. -/
theorem containsSub_append_left {t m : List Char} (l : List Char)
    (h : containsSub t m = true) : containsSub t (l ++ m) = true := by
  induction l with
  | nil => simpa using h
  | cons c r ih =>
    rw [List.cons_append]
    simp only [containsSub, Bool.or_eq_true]
    exact Or.inr ih

/-- Every note is a substring of the `join('\n\n')` of the notes. -/
theorem containsSub_joinNN {note : String} :
    ∀ {notes : List String}, note ∈ notes →
      containsSub note.toList (joinNN notes).toList = true := by
  intro notes
  induction notes with
  | nil => intro h; cases h
  | cons s rest ih =>
    intro h
    cases rest with
    | nil =>
      have : note = s := by
        rcases h with _ | ⟨_, h⟩
        · rfl
        · cases h
      rw [this]
      exact containsSub_of_isPrefixOf
        (by rw [List.isPrefixOf_iff_prefix] <;> exact List.prefix_refl _)
    | cons r t =>
      rcases h with _ | ⟨_, h⟩
      · show containsSub note.toList (note ++ "\n\n" ++ joinNN (r :: t)).toList = true
        have hd : (note ++ "\n\n" ++ joinNN (r :: t)).toList =
            note.toList ++ ("\n\n" ++ joinNN (r :: t)).toList := by
          simp [String.toList, String.data_append]
        rw [hd]
        exact containsSub_append_right _
          (containsSub_of_isPrefixOf
            (by rw [List.isPrefixOf_iff_prefix] <;> exact List.prefix_refl _))
      · show containsSub note.toList (s ++ "\n\n" ++ joinNN (r :: t)).toList = true
        have hd : (s ++ "\n\n" ++ joinNN (r :: t)).toList =
            (s.toList ++ "\n\n".toList) ++ (joinNN (r :: t)).toList := by
          simp [String.toList, String.data_append]
        rw [hd]
        exact containsSub_append_left _ (ih h)

/-- An environment whose LM fails exactly on the report-writer prompt: the
supervisor delegates one topic (the agent returns a fixed finding), JSON
parsing always fails, and phase 4 throws. -/
def env7 : DeepEnv :=
  ⟨fun p =>
    if "You are an expert research writer".toList.isPrefixOf p.toList then
      Except.error "LM provider unavailable"
    else if "system: You are the Deep Research Supervisor".toList.isPrefixOf p.toList then
      Except.ok "USE_TOOL: conduct_research(\"topicA\")"
    else Except.ok "no json",
   fun _ => none, fun _ => none, fun _ => none, "Fri, Oct 9, 2026",
   ⟨[], fun _ _ => Except.ok [], fun _ _ => Except.ok [],
    fun _ _ _ => Except.ok [], fun _ => Except.ok "finding topicA"⟩⟩

/-- A configuration with a single supervisor iteration. -/
def cfg7 : DeepResearchConfig := ⟨"groq", "llama-3.3-70b-versatile", 1, 3⟩

set_option maxRecDepth 16000 in
/-- C7 counterexample: when phase 4 throws, the run still succeeds and the
fallback report joins `state.notes` — the raw notes (`Research on: …`) are
not contained in the final report. -/
theorem conductDeepResearch_fallback_omits_raw_notes :
    (conductDeepResearch env7 cfg7 "ai trends").success = true ∧
    (conductDeepResearch env7 cfg7 "ai trends").raw_notes =
      ["Research on: finding topicA", "Research on: finding topicA"] ∧
    (conductDeepResearch env7 cfg7 "ai trends").final_report =
      some (fallbackReport ["finding topicA", "finding topicA"]) ∧
    containsSub "Research on: finding topicA".toList
      (fallbackReport ["finding topicA", "finding topicA"]).toList = false := by
  exact ⟨by decide, by decide, by decide, by decide⟩

theorem toList_append (a b : String) : (a ++ b).toList = a.toList ++ b.toList :=
  String.data_append a b

/-- C7 (amended): when the clarification passes, the research phase returns
note lists and the report-phase LM call throws, `conductDeepResearch` still
succeeds and `final_report` is the deterministic fallback: it starts with
`# Research Report`, contains a `## Findings Summary` header, and contains
each accumulated note (`state.notes`, not the raw notes). -/
theorem conductDeepResearch_fallback_report (env : DeepEnv) (cfg : DeepResearchConfig)
    (query : String) (notes raw : List String) (e : String)
    (hclar : (clarifyUserIntent env query).need_clarification = false)
    (hsup : (conductMultiAgentResearch env cfg.max_concurrent_agents cfg.max_iterations query
        (some (generateResearchBrief env query).research_brief)).2 = Except.ok (notes, raw))
    (hrep : env.lm (reportPrompt (some (generateResearchBrief env query).research_brief)
        notes env.dateStr) = Except.error e) :
    (conductDeepResearch env cfg query).success = true ∧
    (conductDeepResearch env cfg query).notes = notes ∧
    (conductDeepResearch env cfg query).raw_notes = raw ∧
    (conductDeepResearch env cfg query).final_report = some (fallbackReport notes) ∧
    "# Research Report".toList.isPrefixOf (fallbackReport notes).toList = true ∧
    containsSub "## Findings Summary".toList (fallbackReport notes).toList = true ∧
    ∀ note ∈ notes, containsSub note.toList (fallbackReport notes).toList = true := by
  have hd : (fallbackReport notes).toList =
      (reportHeader.toList ++ (joinNN notes).toList) ++ reportFooter.toList := by
    rw [fallbackReport, toList_append, toList_append]
  have hrun : conductDeepResearch env cfg query =
      ⟨true, some (generateResearchBrief env query).research_brief,
       some (fallbackReport notes), notes, raw, none, none⟩ := by
    unfold conductDeepResearch
    rw [if_neg (by simp [hclar])]
    dsimp only
    rw [hsup]
    dsimp only
    unfold generateFinalReport
    rw [hrep]
  refine ⟨by rw [hrun], by rw [hrun], by rw [hrun], by rw [hrun], ?_, ?_, ?_⟩
  · rw [hd]
    exact isPrefixOf_append_right _ (isPrefixOf_append_right _ (by decide))
  · rw [hd]
    exact containsSub_append_right _ (containsSub_append_right _ (by decide))
  · intro note hnote
    rw [hd]
    exact containsSub_append_right _
      (containsSub_append_left _ (containsSub_joinNN hnote))

set_option maxRecDepth 16000 in
/-- C7 witness: the amended theorem applied to the concrete failing-writer
environment — the run succeeds, the report is the fallback and it contains
the accumulated note. -/
theorem conductDeepResearch_fallback_report_witness :
    (conductDeepResearch env7 cfg7 "ai trends").success = true ∧
    (conductDeepResearch env7 cfg7 "ai trends").final_report =
      some (fallbackReport ["finding topicA", "finding topicA"]) ∧
    containsSub "finding topicA".toList
      (fallbackReport ["finding topicA", "finding topicA"]).toList = true := by
  have h := conductDeepResearch_fallback_report env7 cfg7 "ai trends"
    ["finding topicA", "finding topicA"]
    ["Research on: finding topicA", "Research on: finding topicA"]
    "LM provider unavailable" (by decide) (by decide) (by decide)
  exact ⟨h.1, h.2.2.2.1, h.2.2.2.2.2.2 "finding topicA" (by decide)⟩

/-- A benign environment whose supervisor completes immediately and whose
other LM calls return plain text. -/
def envC1 : DeepEnv :=
  ⟨fun p =>
    if "system: You are the Deep Research Supervisor".toList.isPrefixOf p.toList then
      Except.ok "USE_TOOL: research_complete(\"done\")"
    else Except.ok "plain answer",
   fun _ => none, fun _ => none, fun _ => none, "Fri, Oct 9, 2026", envC10⟩

/-- The route's configuration values relevant to the service. -/
def cfgC1 : DeepResearchConfig := ⟨"groq", "llama-3.3-70b-versatile", 6, 3⟩

set_option maxRecDepth 16000 in
/-- C1 counterexample: `conductDeepResearch` itself performs no length
validation — on the two-character query `ai` it runs to a successful result
with no error — and the rejection lives in the route's `POST` handler with a
different message than the spec's. -/
theorem conductDeepResearch_accepts_short_query :
    (conductDeepResearch envC1 cfgC1 "ai").success = true ∧
    (conductDeepResearch envC1 cfgC1 "ai").error = none ∧
    postHandle (conductDeepResearch envC1 cfgC1) (some "ai") none none =
      ⟨400, false, some "Query must be a non-empty string (min 3 chars).", none⟩ ∧
    "Query must be a non-empty string (min 3 chars)." ≠ "Query must be ≥3 chars" := by
  exact ⟨by decide, by decide, by decide, by decide⟩

/-- C1 (amended): the `POST` route — not the service — rejects a missing
query, and a query whose trim is shorter than 3, with status 400 and the
message `Query must be a non-empty string (min 3 chars).`, without invoking
the research computation (the response is the same for every such
computation); a query whose trim has length at least 3 — so exactly 3
characters included — is passed trimmed to the research computation. -/
theorem route_query_validation (q : String) (run run2 : String → DeepResearchResult) :
    ((trimL q.toList).length < 3 →
      postHandle run (some q) none none =
        ⟨400, false, some "Query must be a non-empty string (min 3 chars).", none⟩ ∧
      postHandle run (some q) none none = postHandle run2 (some q) none none) ∧
    postHandle run none none none =
      ⟨400, false, some "Query must be a non-empty string (min 3 chars).", none⟩ ∧
    (3 ≤ (trimL q.toList).length →
      postHandle run (some q) none none =
        (let r := run (String.mk (trimL q.toList));
         if r.success then ⟨200, true, none, some r⟩ else ⟨500, r.success, r.error, some r⟩)) := by
  refine ⟨?_, rfl, ?_⟩
  · intro h
    constructor
    · unfold postHandle
      dsimp only
      rw [if_pos h]
    · unfold postHandle
      dsimp only
      rw [if_pos h, if_pos h]
  · intro h
    unfold postHandle
    dsimp only
    rw [if_neg (by omega)]
    rw [if_neg (by decide)]
    rw [if_neg (by decide)]

/-- A constant research outcome for the route witness. -/
def resStub : DeepResearchResult := ⟨true, none, some "report", [], [], none, none⟩

/-- C1 witness: `ai` is rejected with the route's message; `abc` (trimmed
length exactly 3) is accepted and dispatched. -/
theorem route_query_validation_witness :
    postHandle (fun _ => resStub) (some "ai") none none =
      ⟨400, false, some "Query must be a non-empty string (min 3 chars).", none⟩ ∧
    postHandle (fun _ => resStub) (some "abc") none none = ⟨200, true, none, some resStub⟩ := by
  have h1 := (route_query_validation "ai" (fun _ => resStub) (fun _ => resStub)).1 (by decide)
  have h2 := (route_query_validation "abc" (fun _ => resStub) (fun _ => resStub)).2.2 (by decide)
  exact ⟨h1.1, h2.trans (by decide)⟩
